import Mathlib

/-!
Verification of the heuristic UV-Vis SPC decoder
(`src/sciwork/fs/parsers/uvvis_spc.py`) against its specification.

Modelling conventions used throughout this file:

* Byte buffers (`bytes` in the source) are `List Nat`, each element a byte
  value `< 256`.  Latin-1 decoding is the identity on byte values, so the
  "text view" of a buffer is the same `List Nat`.
* Python `float` values are modelled as exact rationals (`ℚ`).  IEEE-754
  *decoding* of little-endian `float64`/`float32` byte windows is exact and
  is embedded bit-precisely; arithmetic on the decoded values (mean,
  variance, roughness, linspace, rounding) is idealised as exact rational
  arithmetic.  Decimal literals of the source (`10.0`, `1e-6`, …) are the
  corresponding exact rationals.  The `stddev >= 1e-6` gate is expressed
  equivalently as `variance >= 1e-12`.
* Python dictionaries are association lists in insertion order
  (`List (String × _)`): writing an existing key updates it in place,
  writing a new key appends.
* Python `datetime` values are modelled as the count of microseconds since
  1601-01-01 00:00:00 UTC; `round` / `timedelta` rounding is half-to-even.
* Fallible code paths are `Except` / `Option`.
-/

/-! ### Generic byte/string helpers -/

/-- Bytes of an ASCII/latin-1 string literal (used for the fixed labels of
the source's regular expressions). -/
def strBytes (s : String) : List Nat := s.toList.map Char.toNat

/-- ASCII lower-casing of a byte, mirroring `re.IGNORECASE` on the ASCII
labels used by the parser. -/
def lowerB (c : Nat) : Nat := if 65 ≤ c ∧ c ≤ 90 then c + 32 else c

/-- Python `\s` for latin-1 text: space, TAB, LF, CR, FF, VT, NEL, NBSP. -/
def isPyWs (c : Nat) : Bool :=
  c = 32 ∨ c = 9 ∨ c = 10 ∨ c = 13 ∨ c = 12 ∨ c = 11 ∨ c = 133 ∨ c = 160

/-- Python `str.strip()` on a byte string. -/
def stripWs (s : List Nat) : List Nat :=
  ((s.dropWhile isPyWs).reverse.dropWhile isPyWs).reverse

/-- Little-endian value of a byte list. -/
def leVal (bs : List Nat) : Nat :=
  bs.foldr (fun b acc => b + 256 * acc) 0

/-- Little-endian byte list (length `k`) of a value; used to build concrete
test buffers. -/
def leBytes (v k : Nat) : List Nat :=
  (List.range k).map (fun i => v / 256 ^ i % 256)

/-- First `some` produced by `f` on `fuel` consecutive naturals starting at
`start` (ascending scan order, as Python's `re.search` / linear scans). -/
def scanFirstAux {α : Type} (f : Nat → Option α) : Nat → Nat → Option α
  | _, 0 => none
  | start, fuel + 1 =>
    match f start with
    | some a => some a
    | none => scanFirstAux f (start + 1) fuel

/-- First `some` of `f` over a list, in order. -/
def firstSomeList {α β : Type} : List α → (α → Option β) → Option β
  | [], _ => none
  | a :: l, f =>
    match f a with
    | some b => some b
    | none => firstSomeList l f

/-! ### IEEE-754 decoding (`np.frombuffer` with dtypes `<f8` / `<f4`)

Decoding is exact: a finite float is a dyadic rational.  Non-finite
encodings (`inf`/`nan`, exponent field all ones) decode to `none`, which is
exactly the `np.isfinite` test of the source. -/

/-- Decode 8 little-endian bytes as a finite `float64` (`none` = non-finite). -/
def decF64 (bs : List Nat) : Option ℚ :=
  let v : Nat := leVal bs
  let s : Nat := v / 2 ^ 63
  let e : Nat := v / 2 ^ 52 % 2 ^ 11
  let m : Nat := v % 2 ^ 52
  if e = 2047 then none
  else
    let mag : ℚ :=
      if e = 0 then ((m * 2 : Nat) : ℚ) / ((2 ^ 1075 : Nat) : ℚ)
      else (((2 ^ 52 + m) * 2 ^ e : Nat) : ℚ) / ((2 ^ 1075 : Nat) : ℚ)
    some (if s = 1 then -mag else mag)

/-- Decode 4 little-endian bytes as a finite `float32` (`none` = non-finite). -/
def decF32 (bs : List Nat) : Option ℚ :=
  let v : Nat := leVal bs
  let s : Nat := v / 2 ^ 31
  let e : Nat := v / 2 ^ 23 % 2 ^ 8
  let m : Nat := v % 2 ^ 23
  if e = 255 then none
  else
    let mag : ℚ :=
      if e = 0 then ((m * 2 : Nat) : ℚ) / ((2 ^ 150 : Nat) : ℚ)
      else (((2 ^ 23 + m) * 2 ^ e : Nat) : ℚ) / ((2 ^ 150 : Nat) : ℚ)
  some (if s = 1 then -mag else mag)

/-- Split a byte chunk into consecutive groups of `stride` bytes and decode
each with `dec`; `none` as soon as any value is non-finite
(`np.isfinite(arr).all()` fails). -/
def decodeGroups (dec : List Nat → Option ℚ) (stride : Nat) : Nat → List Nat → Option (List ℚ)
  | 0, _ => some []
  | n + 1, chunk =>
    match dec (chunk.take stride) with
    | none => none
    | some q =>
      match decodeGroups dec stride n (chunk.drop stride) with
      | none => none
      | some l => some (q :: l)

/-! ### List statistics (`numpy` operations, idealised to exact rationals) -/

/-- `arr.min()` on a nonempty list (0 as a junk value for `[]`, unused). -/
def lmin : List ℚ → ℚ
  | [] => 0
  | x :: xs => xs.foldl min x

/-- `arr.max()` on a nonempty list. -/
def lmax : List ℚ → ℚ
  | [] => 0
  | x :: xs => xs.foldl max x

/-- `np.mean`. -/
def lmean (l : List ℚ) : ℚ := l.sum / l.length

/-- Population variance (`np.std(arr) ** 2`); the source's
`np.std(arr) < 1e-6` gate is modelled as `variance < 1e-12`. -/
def lvar (l : List ℚ) : ℚ := lmean (l.map (fun x => (x - lmean l) ^ 2))

/-- `np.diff`. -/
def ldiff (l : List ℚ) : List ℚ := l.tail.zipWith (· - ·) l

/-- `_roughness`: mean squared second difference; `none` models the
`float("inf")` returned when there are no second differences. -/
def _roughness (arr : List ℚ) : Option ℚ :=
  let d2 := ldiff (ldiff arr)
  if d2.isEmpty then none else some (lmean (d2.map (fun x => x * x)))

/-- Strict `<` on roughness scores, `none` playing the role of
`float("inf")` (`inf < inf` is false). -/
def rghLt : Option ℚ → Option ℚ → Bool
  | none, _ => false
  | some _, none => true
  | some x, some y => decide (x < y)

/-! ### `_find_y_values`: the numeric block scan -/

/-- One candidate window of the scan: the `n` values of dtype
(`stride`, `dec`) at byte offset `start` of `blob`, provided the full
window is inside the buffer, all values decode finite, and the candidate
survives the bounds and variance plausibility gates.  Offsets past
`len(blob) - n*stride` decode to `none` (the scan never visits them).
`n = 0` is modelled as no candidate (the source would raise on
`arr.min()` of an empty array; `n ≥ 2` always holds at the call site). -/
def surviving (blob : List Nat) (n : Nat) (lo hi : ℚ) (stride : Nat)
    (dec : List Nat → Option ℚ) (start : Nat) : Option (List ℚ) :=
  if n = 0 then none
  else
    let chunk := (blob.drop start).take (n * stride)
    if chunk.length ≠ n * stride then none
    else
      match decodeGroups dec stride n chunk with
      | none => none
      | some arr =>
        if lmin arr < lo ∨ hi < lmax arr then none
        else if lvar arr < 1 / ((10 ^ 12 : Nat) : ℚ) then none
        else some arr

/-- One step of the `best` tracking loop: keep the strictly smaller
roughness, first-found winning ties (`r < best[0]`). -/
def bestStep (g : Nat → Option (List ℚ)) (best : Option (Option ℚ × Nat × List ℚ))
    (start : Nat) : Option (Option ℚ × Nat × List ℚ) :=
  match g start with
  | none => best
  | some arr =>
    let r := _roughness arr
    match best with
    | none => some (r, start, arr)
    | some (r0, s0, a0) => if rghLt r r0 then some (r, start, arr) else some (r0, s0, a0)

/-- The byte-wise scan `for start in range(0, L - n*step + 1)` threading the
`best` candidate. -/
def bestScan (g : Nat → Option (List ℚ)) : Nat → Nat → Option (Option ℚ × Nat × List ℚ) →
    Option (Option ℚ × Nat × List ℚ)
  | _, 0, best => best
  | start, fuel + 1, best => bestScan g (start + 1) fuel (bestStep g best start)

/-- Number of scanned offsets: `L - n*step + 1` clamped at zero, as
Python's `range`. -/
def numOffsets (L n stride : Nat) : Nat := L + 1 - n * stride

/-- `_find_y_values(blob, n=n, bounds=(lo, hi))`.  Scans `float64` first;
if any `float64` candidate survived, returns the best one immediately and
never runs the `float32` pass.  `float32` values converted to `float64`
(`astype`) are unchanged as rationals.  Raising `ValueError` is the
`Except.error` case. -/
def _find_y_values (blob : List Nat) (n : Nat) (lo : ℚ := -10) (hi : ℚ := 10) :
    Except String (List ℚ × Nat × String) :=
  match bestScan (surviving blob n lo hi 8 decF64) 0 (numOffsets blob.length n 8) none with
  | some (_, s, a) => .ok (a, s, "float64")
  | none =>
    match bestScan (surviving blob n lo hi 4 decF32) 0 (numOffsets blob.length n 4) none with
    | some (_, s, a) => .ok (a, s, "float32")
    | none => .error "Could not locate Y data block."

/-! ### A tiny backtracking matcher for the source's regular expressions

Every pattern in `uvvis_spc.py` is a plain sequence of case-insensitive
literals and greedy/lazy character-class repeats (no alternation, no nested
groups), so Python `re` semantics on them reduce to: leftmost starting
position, and within a position, greedy repeats try longer first / lazy
repeats shorter first. -/

/-- One token of a pattern. -/
inductive RTok where
  | lit (s : List Nat) (ci : Bool)
  | cls (p : Nat → Bool) (lo : Nat) (hi : Option Nat) (lazy cap : Bool)
  | eos

/-- Case-insensitive-or-not literal test at the head of `input`. -/
def litAt (s input : List Nat) (ci : Bool) : Bool :=
  match s, input with
  | [], _ => true
  | _ :: _, [] => false
  | c :: s', x :: input' =>
    (if ci then lowerB c = lowerB x else c = x) ∧ litAt s' input' ci

/-- Length of the maximal prefix of `input` satisfying `p`. -/
def maxRun (p : Nat → Bool) : List Nat → Nat
  | [] => 0
  | c :: rest => if p c then maxRun p rest + 1 else 0

/-- Match a token sequence at the head of `input`; returns the consumed
length and the list of captured groups.  Greedy repeats try longer splits
first, lazy ones shorter first, exactly the backtracking order of `re`. -/
def matchSeq : List RTok → List Nat → Option (Nat × List (List Nat))
  | [], _ => some (0, [])
  | .eos :: rest, input =>
    if input.isEmpty then matchSeq rest input else none
  | .lit s ci :: rest, input =>
    if litAt s input ci then
      (matchSeq rest (input.drop s.length)).map (fun r => (s.length + r.1, r.2))
    else none
  | .cls p lo hi lz cap :: rest, input =>
    let m0 : Nat := maxRun p input
    let m : Nat := match hi with | some h => min m0 h | none => m0
    if m < lo then none
    else
      let ks : List Nat :=
        if lz then List.range' lo (m - lo + 1) else (List.range' lo (m - lo + 1)).reverse
      firstSomeList ks (fun k =>
        (matchSeq rest (input.drop k)).map (fun r =>
          (k + r.1, if cap then input.take k :: r.2 else r.2)))

/-- `re.search`: leftmost starting position whose suffix matches; returns
`(start, consumed, captures)`. -/
def reSearch (toks : List RTok) (input : List Nat) : Option (Nat × Nat × List (List Nat)) :=
  scanFirstAux (fun i =>
    if i ≤ input.length then
      (matchSeq toks (input.drop i)).map (fun r => (i, r.1, r.2))
    else none) 0 (input.length + 1)

/-- Character classes of the source's patterns. -/
def isDigitB (c : Nat) : Bool := 48 ≤ c ∧ c ≤ 57

def isDigitDot (c : Nat) : Bool := isDigitB c ∨ c = 46

def isAlphaB (c : Nat) : Bool := (65 ≤ c ∧ c ≤ 90) ∨ (97 ≤ c ∧ c ≤ 122)

def isSpaceTab (c : Nat) : Bool := c = 32 ∨ c = 9

def notCRLF (c : Nat) : Bool := ¬(c = 13 ∨ c = 10)

def isPrintable (c : Nat) : Bool := 32 ≤ c ∧ c ≤ 126

def isCtl (c : Nat) : Bool := c ≤ 31

/-! ### Tiny text utils of the source -/

/-- `_norm`: collapse every run of control bytes `0x00`–`0x1F` into a single
newline (`re.sub(r"[\x00-\x1F]+", "\n", s)`); the flag records being inside
a control run already replaced by a newline. -/
def normAux : Bool → List Nat → List Nat
  | _, [] => []
  | inRun, c :: rest =>
    if isCtl c then
      if inRun then normAux true rest else 10 :: normAux true rest
    else c :: normAux false rest

def _norm (s : List Nat) : List Nat := normAux false s

/-- `_ascii_runs`: printable-ASCII runs of length ≥ 3 (`decode` is the
identity on printable bytes). -/
def asciiRunsAux : List Nat → List Nat → List (List Nat)
  | [], cur => if cur.length ≥ 3 then [cur.reverse] else []
  | c :: rest, cur =>
    if isPrintable c then asciiRunsAux rest (c :: cur)
    else (if cur.length ≥ 3 then [cur.reverse] else []) ++ asciiRunsAux rest []

def _ascii_runs (b : List Nat) : List (List Nat) := asciiRunsAux b []

/-- Python `float()` on a `[0-9.]+` capture: at most one dot and at least
one digit; exact decimal value. -/
def pyFloat (s : List Nat) : Option ℚ :=
  if (s.filter (fun c => c = 46)).length ≤ 1 ∧ (s.filter isDigitB).length ≥ 1 ∧
      s.all isDigitDot ∧ s ≠ [] then
    let ip := s.takeWhile isDigitB
    let fp := (s.dropWhile isDigitB).drop 1
    some ((ip.foldl (fun a c => a * 10 + (c - 48)) 0 : Nat) +
      ((fp.foldl (fun a c => a * 10 + (c - 48)) 0 : Nat) : ℚ) / 10 ^ fp.length)
  else none

/-- Python `int()` on a `[0-9]+` capture. -/
def pyIntDigits (s : List Nat) : ℤ :=
  (s.foldl (fun a c => a * 10 + (c - 48)) 0 : Nat)

/-- `_is_label_like`: `re.match(r"^[A-Za-z][A-Za-z /]*:\s*$", s)`. -/
def _is_label_like (s : List Nat) : Bool :=
  (matchSeq
    [.cls isAlphaB 1 (some 1) false false,
     .cls (fun c => isAlphaB c ∨ c = 32 ∨ c = 47) 0 none false false,
     .lit (strBytes ":") false,
     .cls isPyWs 0 none false false,
     .eos] s).isSome

/-- `_cap(chunk, label, pattern_after)`: two-stage capture.  Stage 1 is
`label[ \t]*([^\r\n]+)` (or `([^\r\n]*)` when `star` — the
`pattern_after=r"[^\r\n]*"` calls of `_parse_sample_prep`); stage 2 is
`label[^\r\n]*\r?\n([^\r\n]+)`.  Both reject captures that strip to empty
or look like another label. -/
def _cap (chunk : List Nat) (label : String) (star : Bool := false) : Option (List Nat) :=
  let stage2 : Option (List Nat) :=
    match reSearch
      [.lit (strBytes label) true,
       .cls notCRLF 0 none false false,
       .cls (fun c => c = 13) 0 (some 1) false false,
       .lit [10] false,
       .cls notCRLF 1 none false true] chunk with
    | some (_, _, [g]) =>
      let cand := stripWs g
      if cand ≠ [] ∧ ¬ _is_label_like cand then some cand else none
    | _ => none
  match reSearch
    [.lit (strBytes label) true,
     .cls isSpaceTab 0 none false false,
     .cls notCRLF (if star then 0 else 1) none false true] chunk with
  | some (_, _, [g]) =>
    let val := stripWs g
    if val ≠ [] ∧ ¬ _is_label_like val then some val else stage2
  | _ => stage2

/-- `_cap_num(chunk, label)`: first decimal token after the label
(`label\D*([0-9.]+)` then `float`, `None` on failure). -/
def _cap_num (chunk : List Nat) (label : String) : Option ℚ :=
  match reSearch
    [.lit (strBytes label) true,
     .cls (fun c => !isDigitB c) 0 none false false,
     .cls isDigitDot 1 none false true] chunk with
  | some (_, _, [g]) => pyFloat g
  | _ => none

/-- `_cap_broken_interpolate`:
`InterPol(?:.|\n){0,400}?ate:\s*([^\r\n]+)`, strip, empty → `None`. -/
def _cap_broken_interpolate (chunk : List Nat) : Option (List Nat) :=
  match reSearch
    [.lit (strBytes "InterPol") true,
     .cls (fun _ => true) 0 (some 400) true false,
     .lit (strBytes "ate:") true,
     .cls isPyWs 0 none false false,
     .cls notCRLF 1 none false true] chunk with
  | some (_, _, [g]) =>
    let val := stripWs g
    if val = [] then none else some val
  | _ => none

/-- `_empty_to_none`. -/
def _empty_to_none (s : Option (List Nat)) : Option (List Nat) :=
  match s with
  | none => none
  | some v => if stripWs v = [] then none else some v

/-! ### Python dict model and metadata values -/

/-- A metadata value: Python `None` / `str` / `float` / `int`. -/
inductive PVal where
  | none
  | str (s : List Nat)
  | num (q : ℚ)
  | int (n : ℤ)
deriving DecidableEq

/-- Insertion-ordered association list lookup (Python `dict` get). -/
def aget {κ V : Type} [DecidableEq κ] : List (κ × V) → κ → Option V
  | [], _ => Option.none
  | (k', v) :: rest, k => if k' = k then some v else aget rest k

/-- Python `d[k] = v`: update in place if present, else append. -/
def aset {κ V : Type} [DecidableEq κ] : List (κ × V) → κ → V → List (κ × V)
  | [], k, v => [(k, v)]
  | (k', v') :: rest, k, v =>
    if k' = k then (k', v) :: rest else (k', v') :: aset rest k v

/-- Python `d.setdefault(k, v)`. -/
def asetd {κ V : Type} [DecidableEq κ] (d : List (κ × V)) (k : κ) (v : V) : List (κ × V) :=
  if (aget d k).isSome then d else aset d k v

/-- Python `d.update(e)`. -/
def aupdate {κ V : Type} [DecidableEq κ] (d e : List (κ × V)) : List (κ × V) :=
  e.foldl (fun acc p => aset acc p.1 p.2) d

/-- One metadata section. -/
abbrev SDict := List (String × PVal)

/-- The nested metadata record. -/
abbrev Meta := List (String × SDict)

/-- `Optional[str]` to stored value (`None` is stored explicitly). -/
def optStr (o : Option (List Nat)) : PVal :=
  match o with
  | Option.none => PVal.none
  | some s => PVal.str s

/-- `Optional[float]` to stored value. -/
def optNum (o : Option ℚ) : PVal :=
  match o with
  | Option.none => PVal.none
  | some q => PVal.num q

/-- `Optional[int]` to stored value. -/
def optInt (o : Option ℤ) : PVal :=
  match o with
  | Option.none => PVal.none
  | some n => PVal.int n

/-- `_SECTION_NAMES`. -/
def _SECTION_NAMES : List (List Nat) :=
  [strBytes "Software Information", strBytes "Data Information",
   strBytes "Instrument Information", strBytes "Measurement Properties",
   strBytes "Instrument Properties", strBytes "Attachment Properties",
   strBytes "Operation", strBytes "Sample Preparation Properties"]

/-- `_SCHEMA`. -/
def _SCHEMA : List (String × List String) :=
  [("software_information", ["name", "version", "mode"]),
   ("data_information", ["analyst", "comments", "datetime", "datetime_utc"]),
   ("instrument_information", ["name", "type", "model_sn"]),
   ("measurement_properties",
    ["wl_start_nm", "wl_end_nm", "scan_speed", "sampling_interval_nm",
     "auto_sampling_interval", "scan_mode"]),
   ("instrument_properties",
    ["sr_exchange", "measuring_mode", "slit_width_nm", "light_source_change_nm"]),
   ("attachment_properties", ["attachment"]),
   ("operation", ["threshold", "points", "interpolate", "average"]),
   ("sample_preparation_properties",
    ["weight", "volume", "dilution", "path_length", "additional_information"]),
   ("stored_data", ["data_block_offset", "data_dtype", "point_count"])]

/-- Fill one section's missing keys with `None`
(`meta.setdefault(section, {})` then key-wise `setdefault`). -/
def fillSection (m : Meta) (sec : String) (keys : List String) : Meta :=
  let m1 := asetd m sec []
  aset m1 sec (keys.foldl (fun d k => asetd d k PVal.none) ((aget m1 sec).getD []))

/-- `_ensure_schema`. -/
def ensureSchemaAux : List (String × List String) → Meta → Meta
  | [], m => m
  | (sec, keys) :: rest, m => ensureSchemaAux rest (fillSection m sec keys)

def _ensure_schema (m : Meta) : Meta := ensureSchemaAux _SCHEMA m

/-! ### `_slice_sections` -/

/-- `re.finditer` for `\[([A-Za-z ]+)]`: non-overlapping matches scanned
left to right (a match is `[`, a nonempty run of letters/spaces, `]`;
scanning resumes after a match, else one byte further), as
`(start, group 1)` pairs.  The fuel argument (instantiated with the text
length) only bounds the recursion; at least one byte is consumed per step,
so it is never exhausted. -/
def bracketIter : Nat → List Nat → Nat → List (Nat × List Nat)
  | 0, _, _ => []
  | _ + 1, [], _ => []
  | fuel + 1, c :: rest, pos =>
    if c = 91 then
      let run := maxRun (fun ch => isAlphaB ch ∨ ch = 32) rest
      if run ≥ 1 ∧ (rest.drop run).headD 0 = 93 then
        (pos, rest.take run) :: bracketIter fuel (rest.drop (run + 1)) (pos + run + 2)
      else bracketIter fuel rest (pos + 1)
    else bracketIter fuel rest (pos + 1)

/-- `_slice_sections`: heads are recognized bracketed section names in file
order; each chunk runs from its heading to the next heading (or EOF) and is
normalized.  Later duplicate names overwrite earlier ones (`out[name] = …`). -/
def _slice_sections (txt : List Nat) : List (List Nat × List Nat) :=
  let heads := (bracketIter txt.length txt 0).filter
    (fun h => _SECTION_NAMES.contains (stripWs h.2))
  let n := heads.length
  (List.range n).foldl (fun out i =>
    let h := heads.getD i (0, [])
    let endPos := if i + 1 < n then (heads.getD (i + 1) (0, [])).1 else txt.length
    aset out (stripWs h.2) (_norm ((txt.take endPos).drop h.1))) []

/-! ### Per-section field extraction -/

/-- Error cases that abort `load_uvvis_spc` (`ValueError` paths). -/
inductive UvErr where
  | floatParse
  | invalidRange
  | noYBlock
deriving DecidableEq

/-- `_parse_measurement_props`.  The two wavelength captures go through a
bare `float()` (no `try`), so an unconvertible capture propagates as a
`ValueError` (`Except.error .floatParse`). -/
def _parse_measurement_props (chunk : List Nat) : Except UvErr SDict :=
  let wlPart : Except UvErr SDict :=
    match reSearch
      [.lit (strBytes "Wavelength") true, .cls isPyWs 0 none false false,
       .lit (strBytes "Range") true, .cls isPyWs 0 none false false,
       .lit (strBytes "(nm.):") true,
       .cls (fun c => !isDigitB c) 0 none false false,
       .cls isDigitDot 1 none false true,
       .cls (fun c => !isDigitB c) 1 none false false,
       .cls isDigitDot 1 none false true] chunk with
    | some (_, _, [g1, g2]) =>
      match pyFloat g1, pyFloat g2 with
      | some q1, some q2 =>
        .ok (aset (aset [] "wl_start_nm" (PVal.num q1)) "wl_end_nm" (PVal.num q2))
      | _, _ => .error .floatParse
    | _ => .ok []
  match wlPart with
  | .error e => .error e
  | .ok m0 =>
    let m1 := aset m0 "scan_speed" (optStr (_cap chunk "Scan Speed:"))
    let m2 := aset m1 "sampling_interval_nm" (optNum (_cap_num chunk "Sampling Interval:"))
    let m3 :=
      match _cap chunk "Auto Sampling Interval:" with
      | some auto =>
        let autoNum :=
          match reSearch [.cls isDigitDot 1 none false true] auto with
          | some (_, _, [g]) => pyFloat g
          | _ => Option.none
        aset m2 "auto_sampling_interval"
          (match autoNum with
           | some q => PVal.num q
           | Option.none => PVal.str (stripWs auto))
      | Option.none => m2
    .ok (aset m3 "scan_mode" (optStr (_cap chunk "Scan Mode:")))

/-- `_parse_instrument_props`. -/
def _parse_instrument_props (chunk : List Nat) : SDict :=
  aset (aset (aset (aset []
    "sr_exchange" (optStr (_cap chunk "S/R Exchange:")))
    "measuring_mode" (optStr (_cap chunk "Measuring Mode:")))
    "slit_width_nm" (optNum (_cap_num chunk "Slit Width:")))
    "light_source_change_nm" (optNum (_cap_num chunk "Light Source Change Wavelength:"))

/-- `_parse_attachment_props`. -/
def _parse_attachment_props (chunk : List Nat) : SDict :=
  [("attachment", optStr (_cap chunk "Attachment:"))]

/-- `_parse_operation_props`.  `Interpolate` falls back to the gap-tolerant
scan; the source's `_cap(...) or _cap(...)` repeats the identical call, so a
single call is equivalent (`_cap` never returns an empty string). -/
def _parse_operation_props (chunk : List Nat) : SDict :=
  let points : Option ℤ :=
    match reSearch
      [.lit (strBytes "Points:") true,
       .cls (fun c => !isDigitB c) 0 none false false,
       .cls isDigitB 1 none false true] chunk with
    | some (_, _, [g]) => some (pyIntDigits g)
    | _ => Option.none
  let interp :=
    match _cap chunk "Interpolate:" with
    | some v => some v
    | Option.none => _cap_broken_interpolate chunk
  aset (aset (aset (aset []
    "threshold" (optNum (_cap_num chunk "Threshold:")))
    "points" (optInt points))
    "interpolate" (optStr interp))
    "average" (optStr (_cap chunk "Average:"))

/-- `_parse_sample_prep` (the `pattern_after=r"[^\r\n]*"` star variant of
`_cap`, then `_empty_to_none`). -/
def _parse_sample_prep (chunk : List Nat) : SDict :=
  [("weight", optStr (_empty_to_none (_cap chunk "Weight:" true))),
   ("volume", optStr (_empty_to_none (_cap chunk "Volume:" true))),
   ("dilution", optStr (_empty_to_none (_cap chunk "Dilution:" true))),
   ("path_length", optStr (_empty_to_none (_cap chunk "Path Length:" true))),
   ("additional_information",
    optStr (_empty_to_none (_cap chunk "Additional Information:" true)))]

/-- `_extract_sections`: latin-1 text view, slice sections, parse each
recognized one.  The source initialises all nine sections to `{}` and then
reassigns the parsed ones, which yields exactly this record.  Only
`software_information.mode` is written outside the five parsers
(`mode or "Normal Mode"` when the Software Information section exists). -/
def _extract_sections (blob : List Nat) : Except UvErr Meta :=
  let sec := _slice_sections blob
  let mpE : Except UvErr SDict :=
    match aget sec (strBytes "Measurement Properties") with
    | some c => _parse_measurement_props c
    | Option.none => .ok []
  match mpE with
  | .error e => .error e
  | .ok mp =>
  let sw : SDict :=
    match aget sec (strBytes "Software Information") with
    | some c =>
      [("mode", PVal.str
        (match _cap c "Mode:" with
         | some v => if v = [] then strBytes "Normal Mode" else v
         | Option.none => strBytes "Normal Mode"))]
    | Option.none => []
  .ok
    [("software_information", sw),
     ("data_information", []),
     ("instrument_information", []),
     ("measurement_properties", mp),
     ("instrument_properties",
      (match aget sec (strBytes "Instrument Properties") with
       | some c => _parse_instrument_props c
       | Option.none => [])),
     ("attachment_properties",
      (match aget sec (strBytes "Attachment Properties") with
       | some c => _parse_attachment_props c
       | Option.none => [])),
     ("operation",
      (match aget sec (strBytes "Operation") with
       | some c => _parse_operation_props c
       | Option.none => [])),
     ("sample_preparation_properties",
      (match aget sec (strBytes "Sample Preparation Properties") with
       | some c => _parse_sample_prep c
       | Option.none => [])),
     ("stored_data", [])]

/-! ### Datetime model

A Python `datetime` is modelled by its count of microseconds since
1601-01-01 00:00:00 (the FILETIME epoch); `datetime` resolution is one
microsecond, and fractional-microsecond `timedelta`s round half-to-even,
as CPython does. -/

/-- Round half-to-even (Python `round` / `timedelta` normalisation). -/
def roundHE (q : ℚ) : ℤ :=
  let f := q.floor
  let r := q - f
  if r < 1 / 2 then f
  else if 1 / 2 < r then f + 1
  else if f % 2 = 0 then f else f + 1

/-- Proleptic Gregorian civil date from days since 1970-01-01
(Hinnant's `civil_from_days`; the era division is a floor division, the
rest operates on non-negative day counts). -/
def civilFromDays (z0 : ℤ) : ℤ × Nat × Nat :=
  let z := z0 + 719468
  let era := Int.fdiv z 146097
  let doe := (z - era * 146097).toNat
  let yoe := (doe - doe / 1460 + doe / 36524 - doe / 146096) / 365
  let doy := doe - (365 * yoe + yoe / 4 - yoe / 100)
  let mp := (5 * doy + 2) / 153
  let d := doy - (153 * mp + 2) / 5 + 1
  let m := if mp < 10 then mp + 3 else mp - 9
  ((yoe : ℤ) + era * 400 + (if m ≤ 2 then 1 else 0), m, d)

/-- Days since 1970-01-01 of a civil date (Hinnant's `days_from_civil`). -/
def daysFromCivil (y : ℤ) (m d : Nat) : ℤ :=
  let y' := y - (if m ≤ 2 then 1 else 0)
  let era := Int.fdiv y' 400
  let yoe := (y' - era * 400).toNat
  let mp := (m + 9) % 12
  let doy := (153 * mp + 2) / 5 + d - 1
  let doe := yoe * 365 + yoe / 4 - yoe / 100 + doy
  era * 146097 + (doe : ℤ) - 719468

/-- Days between 1601-01-01 (FILETIME epoch) and 1970-01-01. -/
def epochShift : Nat := 134774

def microsPerDay : Nat := 86400000000

/-- Last representable `datetime` (9999-12-31 23:59:59.999999) in
microseconds since 1601-01-01; `base + timedelta` raises `OverflowError`
beyond it. -/
def maxMicros : Nat := (daysFromCivil 10000 1 1 + epochShift).toNat * microsPerDay - 1

/-- Civil date of a microsecond count since 1601-01-01. -/
def civilOfMicros (t : Nat) : ℤ × Nat × Nat :=
  civilFromDays ((t / microsPerDay : Nat) - (epochShift : ℤ))

def yearOfMicros (t : Nat) : ℤ := (civilOfMicros t).1

/-- Powers of two with integer exponent, as exact rationals. -/
def pow2z (z : ℤ) : ℚ :=
  if 0 ≤ z then ((2 ^ z.toNat : Nat) : ℚ) else 1 / ((2 ^ (-z).toNat : Nat) : ℚ)

/-- Floor base-2 logarithm, fuel-based so it reduces in the kernel (the
argument halves every step, so `n` units of fuel always suffice; core's
`Nat.log2` is well-founded recursion and does not reduce). -/
def log2fuel : Nat → Nat → Nat
  | 0, _ => 0
  | fuel + 1, n => if n ≥ 2 then log2fuel fuel (n / 2) + 1 else 0

def nlog2 (n : Nat) : Nat := log2fuel n n

/-- Binary exponent `⌊log2 (val/10)⌋` of the quotient, for `val ≥ 1`: with
`k = nlog2 val` (so `2^k ≤ val < 2^(k+1)`, see `nlog2_pow_le` and
`nlog2_lt_pow`) the quotient `val/10` lies in `(2^(k-4), 2^(k-2))`, and is
`≥ 2^(k-3)` exactly when `8·val ≥ 10·2^k`, i.e. `4·val ≥ 5·2^k`. -/
def dExpo (val : Nat) : ℤ :=
  let k := nlog2 val
  if 4 * val < 5 * 2 ^ k then (k : ℤ) - 4 else (k : ℤ) - 3

/-- Python's `val / 10`: a correctly rounded (round-to-nearest, ties to
even) IEEE-754 binary64 division.  For `0 < val < 2^64` the quotient lies
in the normal range far from overflow, so the nearest double is
`m · 2^(e-52)` with `e = dExpo val` and `m` the half-to-even rounding of
`(val/10) · 2^(52-e)`; when that rounding carries `m` up to `2^53`, the
value `2^53 · 2^(e-52) = 2^(e+1)` is still the correctly rounded double,
so no renormalisation step is needed. -/
def dDivTen (val : Nat) : ℚ :=
  if val = 0 then 0
  else ((roundHE ((val : ℚ) / 10 * pow2z (52 - dExpo val)) : ℤ) : ℚ) *
    pow2z (dExpo val - 52)

/-- `base + dt.timedelta(microseconds=val / 10)`: the tick count is
divided by ten in binary64 (`dDivTen`), then `timedelta` rounds its float
argument half-to-even to whole microseconds (`round(x)` in CPython's
constructor); `none` on `OverflowError`. -/
def decodeFiletime (val : Nat) : Option Nat :=
  let t := (roundHE (dDivTen val)).toNat
  if t > maxMicros then none else some t

/-- One scan step of `_first_filetime`: decode the ticks at one offset and
apply the year plausibility gate `1990 <= year <= 2100`. -/
def ftCandidate (val : Nat) : Option Nat :=
  match decodeFiletime val with
  | none => none
  | some t =>
    if 1990 ≤ yearOfMicros t ∧ yearOfMicros t ≤ 2100 then some t else none

/-- The 64-bit little-endian value at byte offset `i` (`struct.unpack_from("<Q", window, i)`). -/
def ticksAt (w : List Nat) (i : Nat) : Nat := leVal ((w.drop i).take 8)

/-- `_first_filetime`: scan offsets `0 ≤ i < max(0, len(window) - 8)`
(the source's loop bound; note the last aligned offset `len - 8` itself is
not visited), returning the first candidate surviving the year gate;
rejected candidates are skipped and scanning continues. -/
def _first_filetime (w : List Nat) : Option Nat :=
  scanFirstAux (fun i => ftCandidate (ticksAt w i)) 0 (w.length - 8)

/-! ### ISO-8601 rendering and timezone projection -/

/-- Fixed-width decimal rendering. -/
def padDec (w n : Nat) : List Nat :=
  (List.range w).reverse.map (fun i => 48 + n / 10 ^ i % 10)

/-- `datetime.isoformat(timespec="milliseconds")` of an aware datetime:
`YYYY-MM-DDTHH:MM:SS.mmm±HH:MM`, milliseconds truncated, shown at UTC
offset `offMin` minutes (the wall-clock fields are the instant shifted by
the offset). -/
def isoWithOffset (t : Nat) (offMin : ℤ) : List Nat :=
  let loc : ℤ := (t : ℤ) + offMin * 60000000
  let days := Int.fdiv loc (microsPerDay : ℤ)
  let rem := (loc - days * (microsPerDay : ℤ)).toNat
  let c := civilFromDays (days - (epochShift : ℤ))
  let sign := if 0 ≤ offMin then strBytes "+" else strBytes "-"
  let oh := offMin.natAbs / 60
  let om := offMin.natAbs % 60
  padDec 4 c.1.toNat ++ strBytes "-" ++ padDec 2 c.2.1 ++ strBytes "-" ++ padDec 2 c.2.2 ++
  strBytes "T" ++ padDec 2 (rem / 3600000000) ++ strBytes ":" ++
  padDec 2 (rem % 3600000000 / 60000000) ++ strBytes ":" ++
  padDec 2 (rem % 60000000 / 1000000) ++ strBytes "." ++
  padDec 3 (rem % 1000000 / 1000) ++ sign ++ padDec 2 oh ++ strBytes ":" ++ padDec 2 om

/-- Modelled from the IANA tz database (an external dependency of the
source, not repository code): UTC offset of Europe/Prague in minutes at a
UTC instant — CET (+60) in winter, CEST (+120) from the last Sunday of
March 01:00 UTC to the last Sunday of October 01:00 UTC. -/
def pragueOffsetMin (t : Nat) : ℤ :=
  let y := yearOfMicros t
  let lastSun : Nat → ℤ := fun month =>
    let d31 := daysFromCivil y month 31
    d31 - (d31 - 3).emod 7
  let dstStart : ℤ := (lastSun 3 + epochShift) * (microsPerDay : ℤ) + 3600000000
  let dstEnd : ℤ := (lastSun 10 + epochShift) * (microsPerDay : ℤ) + 3600000000
  if dstStart ≤ (t : ℤ) ∧ (t : ℤ) < dstEnd then 120 else 60

/-- Modelled from the IANA tz database: `ZoneInfo(name)` for the zone
names the source can receive.  Only `"Europe/Prague"` (the default
argument of `load_uvvis_spc`) is ever used by the repository. -/
def zoneOffsetMin (name : String) (t : Nat) : ℤ :=
  if name = "Europe/Prague" then pragueOffsetMin t else 0

/-- `_apply_tz(t_utc, tz)`: `(iso_local, iso_utc)`; with `tz=None` only the
UTC string is produced. -/
def _apply_tz (t : Option Nat) (tz : Option String) : Option (List Nat) × Option (List Nat) :=
  match t with
  | Option.none => (Option.none, Option.none)
  | some tu =>
    let isoUtc := isoWithOffset tu 0
    match tz with
    | Option.none => (Option.none, some isoUtc)
    | some name => (some (isoWithOffset tu (zoneOffsetMin name tu)), some isoUtc)

/-! ### `_mine_ascii_cluster` -/

/-- `_first(tokens, pattern)`: first token the pattern matches. -/
def _first (tokens : List (List Nat)) (p : List Nat → Bool) : Option (List Nat) :=
  tokens.find? p

/-- `_nearest(tokens, anchor, pattern)`: among matching tokens, the one
whose index is closest to the first index of `anchor` (strict improvement
only, so the earliest wins ties). -/
def _nearest (tokens : List (List Nat)) (anchor : List Nat) (p : List Nat → Bool) :
    Option (List Nat) :=
  if tokens.contains anchor then
    let idx := tokens.indexOf anchor
    let best := tokens.enum.foldl (fun best jt =>
      if p jt.2 then
        match best with
        | Option.none => some (((jt.1 : ℤ) - idx).natAbs, jt.2)
        | some (bd, bt) =>
          if ((jt.1 : ℤ) - idx).natAbs < bd then some (((jt.1 : ℤ) - idx).natAbs, jt.2)
          else some (bd, bt)
      else best) Option.none
    best.map (fun b => b.2)
  else Option.none

/-- `^\d+\.\d+$` (a `re.search` anchored on both sides matches only the
whole token). -/
def isVersionTok (t : List Nat) : Bool :=
  (matchSeq
    [.cls isDigitB 1 none false false, .lit (strBytes ".") false,
     .cls isDigitB 1 none false false, .eos] t).isSome

/-- `^A\d{6,}$`. -/
def isModelSnTok (t : List Nat) : Bool :=
  (matchSeq
    [.lit (strBytes "A") false, .cls isDigitB 6 none false false, .eos] t).isSome

/-- `UV-\d+\s+Series` (unanchored search). -/
def isTypeTok (t : List Nat) : Bool :=
  (reSearch
    [.lit (strBytes "UV-") false, .cls isDigitB 1 none false false,
     .cls isPyWs 1 none false false, .lit (strBytes "Series") false] t).isSome

/-- `UV-\d{3,4}` (unanchored search). -/
def isUvNameTok (t : List Nat) : Bool :=
  (reSearch
    [.lit (strBytes "UV-") false, .cls isDigitB 3 (some 4) false false] t).isSome

/-- The analyst/comments signature pattern
`rb"\x02([ -~]{1,12})\x0b([ -~]{1,128})"`. -/
def sigPat : List RTok :=
  [.lit [2] false, .cls isPrintable 1 (some 12) false true,
   .lit [11] false, .cls isPrintable 1 (some 128) false true]

/-- The two capture groups of the signature pattern matched at offset `i`. -/
def sigMatchAt (blob : List Nat) (i : Nat) : Option (List Nat × List Nat) :=
  if i ≤ blob.length then
    match matchSeq sigPat (blob.drop i) with
    | some (_, [g1, g2]) => some (g1, g2)
    | _ => Option.none
  else Option.none

/-- `re.search` of the signature over the full buffer (leftmost match);
result is `(match start, group 1, group 2)`. -/
def sigSearch (blob : List Nat) : Option (Nat × List Nat × List Nat) :=
  scanFirstAux (fun i => (sigMatchAt blob i).map (fun g => (i, g.1, g.2)))
    0 (blob.length + 1)

/-- The `±256`-byte window around the signature match centre
(`blob[max(0, center - 256):min(len(blob), center + 256)]`); empty when the
signature was not found (the window is only used in that case). -/
def mineWindow (blob : List Nat) : List Nat :=
  match sigSearch blob with
  | some (c, _, _) => (blob.take (min blob.length (c + 256))).drop (c - 256)
  | Option.none => []

/-- `_mine_ascii_cluster(blob, tz)`. -/
def _mine_ascii_cluster (blob : List Nat) (tz : Option String) : Meta :=
  let m := sigSearch blob
  let window := mineWindow blob
  let tokens := match m with | some _ => _ascii_runs window | Option.none => _ascii_runs blob
  let sw : SDict :=
    if tokens.contains (strBytes "UVProbe") then
      aset (aset [] "name" (PVal.str (strBytes "UVProbe")))
        "version" (optStr (_nearest tokens (strBytes "UVProbe") isVersionTok))
    else []
  let instr : SDict :=
    aset (aset (aset [] "model_sn" (optStr (_first tokens isModelSnTok)))
      "type" (optStr (_first tokens isTypeTok)))
      "name" (optStr (_first tokens isUvNameTok))
  let di : SDict :=
    match m with
    | Option.none => []
    | some (_, g1, g2) =>
      let base := aset (aset [] "analyst" (PVal.str (stripWs g1)))
        "comments" (PVal.str (stripWs g2))
      match _apply_tz (_first_filetime window) tz with
      | (some localIso, some utcIso) =>
        aset (aset base "datetime" (PVal.str localIso)) "datetime_utc" (PVal.str utcIso)
      | (Option.none, some utcIso) =>
        aset (aset base "datetime" (PVal.str utcIso)) "datetime_utc" (PVal.str utcIso)
      | _ => base
  [("software_information", sw),
   ("data_information", di),
   ("instrument_information", instr),
   ("measurement_properties", []),
   ("instrument_properties", []),
   ("attachment_properties", []),
   ("operation", []),
   ("sample_preparation_properties", []),
   ("stored_data", [])]

/-! ### `load_uvvis_spc` -/

/-- The merge loop of `load_uvvis_spc`:
`meta[key].update({kk: vv for kk, vv in mined[key].items() if vv is not None})`
for every section of the mined record. -/
def mergeMined (meta mined : Meta) : Meta :=
  mined.foldl (fun m p =>
    aset m p.1 (aupdate ((aget m p.1).getD []) (p.2.filter (fun kv => kv.2 ≠ PVal.none)))) meta

/-- Section parsing, mining, merging, and the software-mode fallback
(`meta["software_information"].setdefault("mode", "Normal Mode")`) — the
metadata state of `load_uvvis_spc` just before the wavelength axis is
built. -/
def mergedMeta (blob : List Nat) (tz : Option String) : Except UvErr Meta :=
  match _extract_sections blob with
  | .error e => .error e
  | .ok meta0 =>
    let meta1 := mergeMined meta0 (_mine_ascii_cluster blob tz)
    .ok (aset meta1 "software_information"
      (asetd ((aget meta1 "software_information").getD []) "mode"
        (PVal.str (strBytes "Normal Mode"))))

/-- `float(mp.get(key) or default)`: Python `or` takes the default for a
missing key, an explicit `None`, and a stored `0.0` (all falsy).  The keys
read this way (`wl_start_nm`, `wl_end_nm`, `sampling_interval_nm`) are only
ever written as floats by `_parse_measurement_props`, so the string case
cannot occur and is mapped to the default. -/
def pyOrNum (v : Option PVal) (dflt : ℚ) : ℚ :=
  match v with
  | some (PVal.num q) => if q = 0 then dflt else q
  | some (PVal.int n) => if n = 0 then dflt else (n : ℚ)
  | _ => dflt

def wlStartOf (M : Meta) : ℚ :=
  pyOrNum (aget ((aget M "measurement_properties").getD []) "wl_start_nm") 0

def wlEndOf (M : Meta) : ℚ :=
  pyOrNum (aget ((aget M "measurement_properties").getD []) "wl_end_nm") 0

def stepOf (M : Meta) : ℚ :=
  pyOrNum (aget ((aget M "measurement_properties").getD []) "sampling_interval_nm") 1

/-- `n = int(round((wl1 - wl0) / step)) + 1`. -/
def nOf (M : Meta) : ℤ := roundHE ((wlEndOf M - wlStartOf M) / stepOf M) + 1

/-- `np.linspace(a, b, n)` (exact rationals; for `n ≥ 2` the last point is
exactly `b`, for `n = 1` the division by zero convention yields `[a]`,
matching numpy; `n = 0` yields `[]`). -/
def linspace (a b : ℚ) (n : Nat) : List ℚ :=
  (List.range n).map (fun (i : Nat) => a + (i : ℚ) * ((b - a) / ((n : ℚ) - 1)))

/-- `np.round(_, 3)`. -/
def round3 (q : ℚ) : ℚ := (roundHE (q * 1000) : ℚ) / 1000

/-- The returned table: the two columns and the `attrs` metadata record. -/
structure UvTable where
  x : List ℚ
  y : List ℚ
  attrs : Meta
deriving DecidableEq

instance : Inhabited UvTable := ⟨⟨[], [], []⟩⟩

/-- `load_uvvis_spc(path, tz="Europe/Prague")` from the raw bytes of the
file (reading the file from disk, `_read_bytes`, is the I/O boundary and
is not modelled; `FileNotFoundError` precedes it).  The wavelength axis is
`linspace` rounded to 3 decimals and reversed; the `stored_data` section
records the numeric block provenance; `_ensure_schema` completes all keys
before the metadata is attached. -/
def load_uvvis_spc (blob : List Nat) (tz : Option String := some "Europe/Prague") :
    Except UvErr UvTable :=
  match mergedMeta blob tz with
  | .error e => .error e
  | .ok meta2 =>
    let wl0 := wlStartOf meta2
    let wl1 := wlEndOf meta2
    let n : ℤ := nOf meta2
    if n ≤ 1 then .error .invalidRange
    else
      match _find_y_values blob n.toNat with
      | .error _ => .error .noYBlock
      | .ok (y, yOff, yDtype) =>
        let x := ((linspace wl0 wl1 n.toNat).map round3).reverse
        let sd := aupdate ((aget meta2 "stored_data").getD [])
          [("data_block_offset", PVal.int yOff),
           ("data_dtype", PVal.str (strBytes yDtype)),
           ("point_count", PVal.int n)]
        let meta3 := _ensure_schema (aset meta2 "stored_data" sd)
        .ok ⟨x, y, meta3⟩

instance {ε α : Type} [DecidableEq ε] [DecidableEq α] : DecidableEq (Except ε α) :=
  fun a b =>
    match a, b with
    | .ok x, .ok y =>
      if h : x = y then .isTrue (by rw [h])
      else .isFalse (fun hc => by cases hc; exact h rfl)
    | .error x, .error y =>
      if h : x = y then .isTrue (by rw [h])
      else .isFalse (fun hc => by cases hc; exact h rfl)
    | .ok _, .error _ => .isFalse (fun hc => by cases hc)
    | .error _, .ok _ => .isFalse (fun hc => by cases hc)

/-! ### Claim-side auxiliary definitions -/

/-- The dtype string returned by `_find_y_values` determines the byte
stride… -/
def dtypeStride (d : String) : Nat := if d = "float64" then 8 else 4

/-- …and the element decoder. -/
def dtypeDec (d : String) : List Nat → Option ℚ :=
  if d = "float64" then decF64 else decF32

/-- Executable strict-descent check for the wavelength column. -/
def strictDescB : List ℚ → Bool
  | [] => true
  | [_] => true
  | a :: b :: l => decide (b < a) && strictDescB (b :: l)

/-- Schema completeness: every section of `_SCHEMA` is present and holds
every one of its keys (possibly with the explicit `None` marker). -/
def schemaComplete (M : Meta) : Prop :=
  ∀ sec keys, (sec, keys) ∈ _SCHEMA →
    ∃ d, aget M sec = some d ∧ ∀ k, k ∈ keys → (aget d k).isSome = true

/-- Stated from the claim's words (for comparison with the code's
behaviour): the timestamp `ticks / 10` microseconds after the epoch,
*exactly*, as a rational number of microseconds. -/
def filetimeSpecMicros (val : Nat) : ℚ := (val : ℚ) / 10

/-- Stated from the claim's words (for comparison with the code's
behaviour): the buffer contains a printable-ASCII run of 1–12 bytes
preceded by a single control byte (any byte `0x00`–`0x1F`), followed
immediately by a control byte and a printable run of 1–128 bytes. -/
def claimC9SigFound (blob : List Nat) : Bool :=
  (reSearch
    [.cls isCtl 1 (some 1) false false, .cls isPrintable 1 (some 12) false true,
     .cls isCtl 1 (some 1) false false, .cls isPrintable 1 (some 128) false true]
    blob).isSome

/-! ### Concrete test buffers -/

/-- `float64` little-endian bytes from sign/exponent/mantissa fields. -/
def f64Bits (sg e m : Nat) : List Nat := leBytes (sg * 2 ^ 63 + e * 2 ^ 52 + m) 8

/-- FILETIME ticks of 2024-01-01 00:00:00 UTC. -/
def ticks2024 : Nat := 133485408000000000

/-- FILETIME ticks of 1700-01-01 00:00:00 UTC. -/
def ticks1700 : Nat := 31241376000000000

/-- 24 bytes encoding the `float64` array `[0, 1, 2]`. -/
def c1blob : List Nat := f64Bits 0 0 0 ++ f64Bits 0 1023 0 ++ f64Bits 0 1024 0

/-- 24 bytes encoding the `float64` array `[0, 1/2, 1]`. -/
def c2blob : List Nat := f64Bits 0 0 0 ++ f64Bits 0 1022 0 ++ f64Bits 0 1023 0

/-- 24 bytes encoding the `float64` array `[1, 2, 3]`. -/
def c3blob : List Nat :=
  f64Bits 0 1023 0 ++ f64Bits 0 1024 0 ++ f64Bits 0 1024 (2 ^ 51)

/-- A buffer with one parsed Operation field. -/
def c4blob : List Nat := strBytes "[Operation]\nThreshold: 2.5\n"

/-- A window whose only examined ticks value is 15 (`15 / 10` microseconds
is not representable at `datetime` resolution). -/
def c5cblob : List Nat := leBytes 15 8 ++ [0]

/-- Two consecutive ticks values: 1700-01-01 (gate-rejected) then
2024-01-01 (accepted); the trailing byte brings offset 8 into the scanned
range. -/
def c5wblob : List Nat := leBytes ticks1700 8 ++ leBytes ticks2024 8 ++ [0]

/-- Wavelength metadata (3 points) followed by the `float64` block
`[0, 1, 2]`. -/
def c7blob : List Nat :=
  strBytes "[Measurement Properties]\nWavelength Range (nm.): 500.0 502.0\nSampling Interval: 1.0\n" ++
  f64Bits 0 0 0 ++ f64Bits 0 1023 0 ++ f64Bits 0 1024 0

/-- Axis spacing 0.0004 nm: rounding to 3 decimals collapses the two axis
points (`n = 2`), defeating strict descent. -/
def c8cblob : List Nat :=
  strBytes "[Measurement Properties]\nWavelength Range (nm.): 1.0 1.0004\nSampling Interval: 0.0004\n" ++
  f64Bits 0 0 0 ++ f64Bits 0 1023 0

/-- Axis spacing 1 nm (3 points), data block `[0, 1, 2]`. -/
def c8wblob : List Nat :=
  strBytes "[Measurement Properties]\nWavelength Range (nm.): 400.0 402.0\nSampling Interval: 1.0\n" ++
  f64Bits 0 0 0 ++ f64Bits 0 1023 0 ++ f64Bits 0 1024 0

/-- A buffer whose analyst/comment runs are delimited by the control bytes
`0x03` and `0x0A` instead of `0x02`/`0x0B`. -/
def c9cblob : List Nat := [3, 65, 66, 10, 67, 68]

/-- A buffer carrying the exact `\x02…\x0b…` signature (`"Jo"`, `"hi"`). -/
def c9wblob : List Nat := [2, 74, 111, 11, 104, 105, 0]

/-- A full decode exercising the default timezone: 2024 FILETIME, the
analyst/comments signature, wavelength metadata (2 points) and a
`float64` block `[0, 1]`. -/
def c10blob : List Nat :=
  leBytes ticks2024 8 ++ [2] ++ strBytes "JD" ++ [11] ++ strBytes "hi" ++ [0] ++
  strBytes "[Measurement Properties]\nWavelength Range (nm.): 400.0 401.0\nSampling Interval: 1.0\n" ++
  f64Bits 0 0 0 ++ f64Bits 0 1023 0

/-- The decoded tables of the successful test buffers. -/
def c7res : UvTable :=
  match load_uvvis_spc c7blob none with | .ok r => r | .error _ => default

def c8cres : UvTable :=
  match load_uvvis_spc c8cblob none with | .ok r => r | .error _ => default

def c8wres : UvTable :=
  match load_uvvis_spc c8wblob none with | .ok r => r | .error _ => default

def c10res : UvTable :=
  match load_uvvis_spc c10blob with | .ok r => r | .error _ => default

/-- The merged metadata of the empty buffer (no sections at all). -/
def c6meta : Meta :=
  match mergedMeta [] none with | .ok m => m | .error _ => []

def c8wmeta : Meta :=
  match mergedMeta c8wblob none with | .ok m => m | .error _ => []

def c4meta : Meta :=
  match _extract_sections c4blob with | .ok m => m | .error _ => []

/-- Loop invariant of the `best` tracking scan over offsets `< m`: either
no candidate survived, or `best` holds the first offset attaining the
minimal roughness among survivors. -/
def BestInv (g : Nat → Option (List ℚ)) (m : Nat) :
    Option (Option ℚ × Nat × List ℚ) → Prop
  | Option.none => ∀ s, s < m → g s = Option.none
  | some (r, s0, a) =>
      s0 < m ∧ g s0 = some a ∧ r = _roughness a ∧
      (∀ s a', s < m → g s = some a' → rghLt (_roughness a') r = false) ∧
      (∀ s a', s < s0 → g s = some a' → rghLt r (_roughness a') = true)

/-! ## Theorems -/

theorem scanFirstAux_some_iff {α : Type} (f : Nat → Option α) :
    ∀ (fuel start : Nat) (a : α),
      scanFirstAux f start fuel = some a ↔
        ∃ i, start ≤ i ∧ i < start + fuel ∧ f i = some a ∧
          ∀ j, start ≤ j → j < i → f j = none := by
  intro fuel
  induction fuel with
  | zero =>
    intro start a
    simp only [scanFirstAux]
    constructor
    · intro h; cases h
    · rintro ⟨i, h1, h2, -, -⟩; omega
  | succ fuel ih =>
    intro start a
    simp only [scanFirstAux]
    cases hf : f start with
    | some b =>
      constructor
      · intro h
        cases h
        exact ⟨start, le_refl _, by omega, hf, fun j hj1 hj2 => by omega⟩
      · rintro ⟨i, h1, h2, h3, h4⟩
        rcases Nat.eq_or_lt_of_le h1 with rfl | hlt
        · rw [hf] at h3; cases h3; rfl
        · rw [h4 start (le_refl _) hlt] at hf; cases hf
    | none =>
      rw [ih (start + 1) a]
      constructor
      · rintro ⟨i, h1, h2, h3, h4⟩
        refine ⟨i, by omega, by omega, h3, fun j hj1 hj2 => ?_⟩
        rcases Nat.eq_or_lt_of_le hj1 with rfl | hlt
        · exact hf
        · exact h4 j hlt hj2
      · rintro ⟨i, h1, h2, h3, h4⟩
        have hi : start + 1 ≤ i := by
          rcases Nat.eq_or_lt_of_le h1 with rfl | hlt
          · rw [hf] at h3; cases h3
          · omega
        exact ⟨i, hi, by omega, h3, fun j hj1 hj2 => h4 j (by omega) hj2⟩

theorem scanFirstAux_none_iff {α : Type} (f : Nat → Option α) :
    ∀ (fuel start : Nat),
      scanFirstAux f start fuel = none ↔
        ∀ i, start ≤ i → i < start + fuel → f i = none := by
  intro fuel
  induction fuel with
  | zero =>
    intro start
    simp only [scanFirstAux]
    exact ⟨fun _ i h1 h2 => by omega, fun _ => trivial⟩
  | succ fuel ih =>
    intro start
    simp only [scanFirstAux]
    cases hf : f start with
    | some b =>
      constructor
      · intro h; cases h
      · intro h; rw [h start (le_refl _) (by omega)] at hf; cases hf
    | none =>
      rw [ih (start + 1)]
      constructor
      · intro h i h1 h2
        rcases Nat.eq_or_lt_of_le h1 with rfl | hlt
        · exact hf
        · exact h i hlt (by omega)
      · intro h i h1 h2
        exact h i (by omega) (by omega)

theorem rghLt_trans {a b c : Option ℚ} (h1 : rghLt a b = true) (h2 : rghLt b c = true) :
    rghLt a c = true := by
  cases a with
  | none => simp [rghLt] at h1
  | some x =>
    cases b with
    | none => simp [rghLt] at h2
    | some y =>
      cases c with
      | none => simp [rghLt]
      | some z =>
        simp only [rghLt, decide_eq_true_eq] at h1 h2 ⊢
        linarith

theorem rghLt_of_lt_of_not_lt {a b c : Option ℚ} (h1 : rghLt a b = true)
    (h2 : rghLt c b = false) : rghLt a c = true := by
  cases a with
  | none => simp [rghLt] at h1
  | some x =>
    cases c with
    | none => simp [rghLt]
    | some z =>
      cases b with
      | none => simp [rghLt] at h2
      | some y =>
        simp only [rghLt, decide_eq_true_eq, decide_eq_false_iff_not, not_lt] at h1 h2 ⊢
        linarith

theorem rghLt_false_of_false_of_lt {a b c : Option ℚ} (h1 : rghLt a b = false)
    (h2 : rghLt c b = true) : rghLt a c = false := by
  cases hc : rghLt a c with
  | false => rfl
  | true => rw [rghLt_trans hc h2] at h1; cases h1

theorem rghLt_irrefl (a : Option ℚ) : rghLt a a = false := by
  cases a with
  | none => rfl
  | some x => simp [rghLt]

theorem bestStep_inv {g : Nat → Option (List ℚ)} {m : Nat}
    {b : Option (Option ℚ × Nat × List ℚ)} (h : BestInv g m b) :
    BestInv g (m + 1) (bestStep g b m) := by
  unfold bestStep
  cases hg : g m with
  | none =>
    cases b with
    | none =>
      intro s hs
      rcases Nat.lt_succ_iff_lt_or_eq.mp hs with hlt | rfl
      · exact h s hlt
      · exact hg
    | some t =>
      obtain ⟨r, s0, a⟩ := t
      obtain ⟨h1, h2, h3, h4, h5⟩ := h
      refine ⟨by omega, h2, h3, fun s a' hs ha' => ?_, h5⟩
      rcases Nat.lt_succ_iff_lt_or_eq.mp hs with hlt | rfl
      · exact h4 s a' hlt ha'
      · rw [hg] at ha'; cases ha'
  | some arr =>
    cases b with
    | none =>
      dsimp only
      refine ⟨by omega, hg, rfl, fun s a' hs ha' => ?_, fun s a' hs ha' => ?_⟩
      · rcases Nat.lt_succ_iff_lt_or_eq.mp hs with hlt | rfl
        · rw [h s hlt] at ha'; cases ha'
        · rw [hg] at ha'; cases ha'
          exact rghLt_irrefl _
      · rw [h s hs] at ha'; cases ha'
    | some t =>
      obtain ⟨r0, s0, a0⟩ := t
      obtain ⟨h1, h2, h3, h4, h5⟩ := h
      dsimp only
      cases hlt : rghLt (_roughness arr) r0 with
      | true =>
        simp only [if_pos rfl]
        refine ⟨by omega, hg, rfl, fun s a' hs ha' => ?_, fun s a' hs ha' => ?_⟩
        · rcases Nat.lt_succ_iff_lt_or_eq.mp hs with hl | rfl
          · exact rghLt_false_of_false_of_lt (h4 s a' hl ha') hlt
          · rw [hg] at ha'; cases ha'
            exact rghLt_irrefl _
        · exact rghLt_of_lt_of_not_lt hlt (h4 s a' (by omega) ha')
      | false =>
        simp only [Bool.false_eq_true, if_false]
        refine ⟨by omega, h2, h3, fun s a' hs ha' => ?_, h5⟩
        rcases Nat.lt_succ_iff_lt_or_eq.mp hs with hl | rfl
        · exact h4 s a' hl ha'
        · rw [hg] at ha'; cases ha'; exact hlt

theorem bestScan_inv {g : Nat → Option (List ℚ)} :
    ∀ (fuel start : Nat) (b : Option (Option ℚ × Nat × List ℚ)),
      BestInv g start b → BestInv g (start + fuel) (bestScan g start fuel b) := by
  intro fuel
  induction fuel with
  | zero => intro start b h; exact h
  | succ fuel ih =>
    intro start b h
    have hstep := ih (start + 1) (bestStep g b start) (bestStep_inv h)
    rw [show start + (fuel + 1) = start + 1 + fuel from by omega]
    exact hstep

theorem surviving_out_of_range {blob : List Nat} {n : Nat} {lo hi : ℚ} {stride : Nat}
    {dec : List Nat → Option ℚ} {s : Nat} (hst : 0 < stride)
    (h : blob.length < s + n * stride) :
    surviving blob n lo hi stride dec s = none := by
  unfold surviving
  by_cases hn : n = 0
  · simp [hn]
  · rw [if_neg hn]
    have hlen : ((blob.drop s).take (n * stride)).length ≠ n * stride := by
      rw [List.length_take, List.length_drop]
      have h1 : 0 < n * stride := Nat.mul_pos (Nat.pos_of_ne_zero hn) hst
      omega
    rw [if_pos hlen]

theorem surviving_some {blob : List Nat} {n : Nat} {lo hi : ℚ} {stride : Nat}
    {dec : List Nat → Option ℚ} {s : Nat} {a : List ℚ}
    (h : surviving blob n lo hi stride dec s = some a) :
    n ≠ 0 ∧ ((blob.drop s).take (n * stride)).length = n * stride ∧
    decodeGroups dec stride n ((blob.drop s).take (n * stride)) = some a ∧
    lo ≤ lmin a ∧ lmax a ≤ hi ∧ 1 / ((10 ^ 12 : Nat) : ℚ) ≤ lvar a := by
  unfold surviving at h
  split at h
  · cases h
  next hn =>
    dsimp only at h
    split at h
    · cases h
    next hlen =>
      rw [not_ne_iff] at hlen
      split at h
      · cases h
      next arr hdec =>
        split at h
        · cases h
        next hb =>
          split at h
          · cases h
          next hv =>
            cases h
            push_neg at hb hv
            exact ⟨hn, hlen, hdec, hb.1, hb.2, hv⟩

theorem surviving_offset_bound {blob : List Nat} {n : Nat} {lo hi : ℚ} {stride : Nat}
    {dec : List Nat → Option ℚ} {s : Nat} {a : List ℚ} (hst : 0 < stride)
    (h : surviving blob n lo hi stride dec s = some a) :
    s + n * stride ≤ blob.length := by
  by_contra hc
  rw [surviving_out_of_range hst (by omega)] at h
  cases h

/-- The scan of one dtype pass, packaged with its invariant. -/
theorem pass_inv (blob : List Nat) (n : Nat) (lo hi : ℚ) (stride : Nat)
    (dec : List Nat → Option ℚ) :
    BestInv (surviving blob n lo hi stride dec) (numOffsets blob.length n stride)
      (bestScan (surviving blob n lo hi stride dec) 0
        (numOffsets blob.length n stride) none) := by
  have h0 : BestInv (surviving blob n lo hi stride dec) 0 none := by
    intro s hs; omega
  have hmain := bestScan_inv (g := surviving blob n lo hi stride dec)
    (numOffsets blob.length n stride) 0 none h0
  simpa using hmain

/-- Every offset at or past the scan bound has no surviving candidate. -/
theorem surviving_none_of_ge {blob : List Nat} {n : Nat} {lo hi : ℚ} {stride : Nat}
    {dec : List Nat → Option ℚ} {s : Nat} (hst : 0 < stride)
    (hs : numOffsets blob.length n stride ≤ s) :
    surviving blob n lo hi stride dec s = none := by
  by_cases hn : n = 0
  · unfold surviving; simp [hn]
  · apply surviving_out_of_range hst
    unfold numOffsets at hs
    have h1 : 0 < n * stride := Nat.mul_pos (Nat.pos_of_ne_zero hn) hst
    omega

theorem find_ok_inv {blob : List Nat} {n : Nat} {y : List ℚ} {off : Nat} {d : String}
    (h : _find_y_values blob n = .ok (y, off, d)) :
    (d = "float64" ∧ ∃ r, bestScan (surviving blob n (-10) 10 8 decF64) 0
      (numOffsets blob.length n 8) none = some (r, off, y)) ∨
    (d = "float32" ∧
      bestScan (surviving blob n (-10) 10 8 decF64) 0 (numOffsets blob.length n 8) none
        = none ∧
      ∃ r, bestScan (surviving blob n (-10) 10 4 decF32) 0
        (numOffsets blob.length n 4) none = some (r, off, y)) := by
  unfold _find_y_values at h
  split at h
  next r s a h64 =>
    cases h
    exact Or.inl ⟨rfl, r, h64⟩
  next h64 =>
    split at h
    next r s a h32 =>
      cases h
      exact Or.inr ⟨rfl, h64, r, h32⟩
    next => cases h

theorem find_ok_best {blob : List Nat} {n : Nat} {y : List ℚ} {off : Nat} {d : String}
    (h : _find_y_values blob n = .ok (y, off, d)) :
    (d = "float64" ∨ d = "float32") ∧ 0 < dtypeStride d ∧
    surviving blob n (-10) 10 (dtypeStride d) (dtypeDec d) off = some y ∧
    ∀ s a, surviving blob n (-10) 10 (dtypeStride d) (dtypeDec d) s = some a →
      rghLt (_roughness a) (_roughness y) = false ∧
      (s < off → rghLt (_roughness y) (_roughness a) = true) := by
  rcases find_ok_inv h with ⟨rfl, r, hscan⟩ | ⟨rfl, -, r, hscan⟩ <;>
  [have hinv := pass_inv blob n (-10) 10 8 decF64;
   have hinv := pass_inv blob n (-10) 10 4 decF32] <;>
  rw [hscan] at hinv <;>
  obtain ⟨h1, h2, h3, h4, h5⟩ := hinv <;>
  simp only [dtypeStride, dtypeDec, if_pos rfl, String.reduceEq, if_false,
    reduceIte] <;>
  refine ⟨by simp, by norm_num, h2, fun s a hs => ?_⟩ <;>
  subst h3 <;>
  rcases Nat.lt_or_ge s (numOffsets blob.length n _) with hrange | hrange
  · exact ⟨h4 s a hrange hs, fun hso => h5 s a hso hs⟩
  · rw [surviving_none_of_ge (by norm_num) hrange] at hs; cases hs
  · exact ⟨h4 s a hrange hs, fun hso => h5 s a hso hs⟩
  · rw [surviving_none_of_ge (by norm_num) hrange] at hs; cases hs

/-- C1: whenever at least one float64 candidate of length `n` anywhere in
the buffer survives all plausibility gates (finite values, `min ≥ -10`,
`max ≤ 10`, non-degenerate variance), `_find_y_values` returns a block
with dtype `"float64"`; the float32 pass is never consulted, so a
plausible float64 candidate always wins over any float32 candidate. -/
theorem uvvis_c1_dtype_priority (blob : List Nat) (n s : Nat) (a : List ℚ)
    (h : surviving blob n (-10) 10 8 decF64 s = some a) :
    ∃ y off, _find_y_values blob n = .ok (y, off, "float64") := by
  cases hscan : bestScan (surviving blob n (-10) 10 8 decF64) 0
      (numOffsets blob.length n 8) none with
  | none =>
    exfalso
    have hinv := pass_inv blob n (-10) 10 8 decF64
    rw [hscan] at hinv
    rcases Nat.lt_or_ge s (numOffsets blob.length n 8) with hrange | hrange
    · rw [hinv s hrange] at h; cases h
    · rw [surviving_none_of_ge (by norm_num) hrange] at h; cases h
  | some t =>
    obtain ⟨r, off, y⟩ := t
    refine ⟨y, off, ?_⟩
    unfold _find_y_values
    rw [hscan]

/-- C2: if `_find_y_values` returns `(y, off, d)`, then the candidate at
`off` for dtype `d` survives all gates, no surviving candidate of that
dtype has strictly smaller roughness, and any surviving candidate at a
strictly smaller byte offset has strictly larger roughness — i.e. the
result is the first offset attaining the minimal roughness, making the
selection deterministic. -/
theorem uvvis_c2_roughness_selection (blob : List Nat) (n : Nat) (y : List ℚ)
    (off : Nat) (d : String) (h : _find_y_values blob n = .ok (y, off, d)) :
    surviving blob n (-10) 10 (dtypeStride d) (dtypeDec d) off = some y ∧
    ∀ s a, surviving blob n (-10) 10 (dtypeStride d) (dtypeDec d) s = some a →
      rghLt (_roughness a) (_roughness y) = false ∧
      (s < off → rghLt (_roughness y) (_roughness a) = true) := by
  obtain ⟨-, -, h3, h4⟩ := find_ok_best h
  exact ⟨h3, h4⟩

/-- C3: if `_find_y_values` returns `(y, off, d)`, every element of `y`
decodes finite (the whole window decodes), `min y ≥ -10`, `max y ≤ 10`,
the variance is at least `1e-12` (std ≥ 1e-6), and
`off + n·stride ≤ len(blob)` with stride 8 for float64 and 4 for
float32. -/
theorem uvvis_c3_plausibility_post (blob : List Nat) (n : Nat) (y : List ℚ)
    (off : Nat) (d : String) (h : _find_y_values blob n = .ok (y, off, d)) :
    (d = "float64" ∨ d = "float32") ∧
    decodeGroups (dtypeDec d) (dtypeStride d) n
      ((blob.drop off).take (n * dtypeStride d)) = some y ∧
    -10 ≤ lmin y ∧ lmax y ≤ 10 ∧ 1 / ((10 ^ 12 : Nat) : ℚ) ≤ lvar y ∧
    off + n * dtypeStride d ≤ blob.length := by
  obtain ⟨hd, hst, h3, -⟩ := find_ok_best h
  obtain ⟨-, -, hdec, hmin, hmax, hvar⟩ := surviving_some h3
  exact ⟨hd, hdec, hmin, hmax, hvar, surviving_offset_bound hst h3⟩

theorem aget_aset_self {V : Type} (d : List (String × V)) (k : String) (v : V) :
    aget (aset d k v) k = some v := by
  induction d with
  | nil => simp [aset, aget]
  | cons p rest ih =>
    obtain ⟨k', v'⟩ := p
    by_cases hk : k' = k
    · subst hk; simp [aset, aget]
    · simp [aset, aget, hk, ih]

theorem aget_aset_ne {V : Type} (d : List (String × V)) (k k' : String) (v : V)
    (h : k' ≠ k) : aget (aset d k' v) k = aget d k := by
  induction d with
  | nil => simp [aset, aget, h]
  | cons p rest ih =>
    obtain ⟨k0, v0⟩ := p
    by_cases hk : k0 = k'
    · subst hk; simp [aset, aget, h, ih]
    · simp only [aset, if_neg hk, aget]
      by_cases hk2 : k0 = k
      · simp [hk2]
      · simp [hk2, ih]

theorem aget_asetd_of_some {V : Type} (d : List (String × V)) (k k' : String)
    (v v' : V) (h : aget d k = some v) : aget (asetd d k' v') k = some v := by
  unfold asetd
  split
  · exact h
  next hp =>
    by_cases hk : k' = k
    · subst hk; rw [h] at hp; simp at hp
    · rw [aget_aset_ne _ _ _ _ hk]; exact h

theorem aget_asetd_isSome {V : Type} (d : List (String × V)) (k : String) (v : V) :
    (aget (asetd d k v) k).isSome = true := by
  unfold asetd
  split
  next hp => exact hp
  next => rw [aget_aset_self]; rfl

theorem aget_aset_isSome_mono {V : Type} (d : List (String × V)) (k k' : String)
    (v' : V) (h : (aget d k).isSome = true) : (aget (aset d k' v') k).isSome = true := by
  by_cases hk : k' = k
  · subst hk; rw [aget_aset_self]; rfl
  · rw [aget_aset_ne _ _ _ _ hk]; exact h

theorem aget_asetd_isSome_mono {V : Type} (d : List (String × V)) (k k' : String)
    (v' : V) (h : (aget d k).isSome = true) : (aget (asetd d k' v') k).isSome = true := by
  unfold asetd
  split
  · exact h
  · exact aget_aset_isSome_mono _ _ _ _ h

theorem aget_aupdate_not_mem {V : Type} (e d : List (String × V)) (k : String)
    (h : ∀ p, p ∈ e → p.1 ≠ k) : aget (aupdate d e) k = aget d k := by
  induction e generalizing d with
  | nil => rfl
  | cons p rest ih =>
    obtain ⟨k0, v0⟩ := p
    have hne : k0 ≠ k := h (k0, v0) (by simp)
    show aget (aupdate (aset d k0 v0) rest) k = aget d k
    rw [ih (aset d k0 v0) (fun q hq => h q (by simp [hq]))]
    exact aget_aset_ne _ _ _ _ hne

theorem aget_mem {V : Type} (d : List (String × V)) (k : String) (v : V)
    (h : aget d k = some v) : (k, v) ∈ d := by
  induction d with
  | nil => cases h
  | cons p rest ih =>
    obtain ⟨k0, v0⟩ := p
    unfold aget at h
    split at h
    next hk => cases h; subst hk; simp
    next hk => simp [ih h]

theorem mem_aset {V : Type} (d : List (String × V)) (k k' : String) (v v' : V)
    (h : (k, v) ∈ aset d k' v') : (k = k' ∧ v = v') ∨ (k, v) ∈ d := by
  induction d with
  | nil =>
    simp [aset] at h
    exact Or.inl ⟨h.1, h.2⟩
  | cons p rest ih =>
    obtain ⟨k0, v0⟩ := p
    unfold aset at h
    split at h
    next hk =>
      rcases List.mem_cons.mp h with heq | hm
      · cases heq; exact Or.inl ⟨hk, rfl⟩
      · exact Or.inr (by simp [hm])
    next hk =>
      rcases List.mem_cons.mp h with heq | hm
      · cases heq; exact Or.inr (by simp)
      · rcases ih hm with h1 | h2
        · exact Or.inl h1
        · exact Or.inr (by simp [h2])

theorem aget_fold_asetd_mono (keys : List String) (d : SDict) (k : String)
    (h : (aget d k).isSome = true) :
    (aget (keys.foldl (fun d k => asetd d k PVal.none) d) k).isSome = true := by
  induction keys generalizing d with
  | nil => exact h
  | cons k0 rest ih => exact ih _ (aget_asetd_isSome_mono _ _ _ _ h)

theorem aget_fold_asetd_isSome (keys : List String) (d : SDict) (k : String)
    (h : k ∈ keys) :
    (aget (keys.foldl (fun d k => asetd d k PVal.none) d) k).isSome = true := by
  induction keys generalizing d with
  | nil => cases h
  | cons k0 rest ih =>
    rcases List.mem_cons.mp h with rfl | hm
    · exact aget_fold_asetd_mono rest _ k (aget_asetd_isSome d k PVal.none)
    · exact ih _ hm

theorem aget_fold_asetd_of_some (keys : List String) (d : SDict) (k : String)
    (v : PVal) (h : aget d k = some v) :
    aget (keys.foldl (fun d k => asetd d k PVal.none) d) k = some v := by
  induction keys generalizing d with
  | nil => exact h
  | cons k0 rest ih => exact ih _ (aget_asetd_of_some _ _ _ _ _ h)

theorem fillSection_complete (m : Meta) (sec : String) (keys : List String) :
    ∃ d, aget (fillSection m sec keys) sec = some d ∧
      ∀ k, k ∈ keys → (aget d k).isSome = true := by
  unfold fillSection
  refine ⟨_, aget_aset_self _ _ _, fun k hk => aget_fold_asetd_isSome keys _ k hk⟩

theorem fillSection_mono (m : Meta) (sec : String) (keys : List String)
    (sec' : String) (keys' : List String)
    (h : ∃ d, aget m sec' = some d ∧ ∀ k, k ∈ keys' → (aget d k).isSome = true) :
    ∃ d, aget (fillSection m sec keys) sec' = some d ∧
      ∀ k, k ∈ keys' → (aget d k).isSome = true := by
  obtain ⟨d, hd, hkeys⟩ := h
  unfold fillSection
  dsimp only
  by_cases hsec : sec = sec'
  · subst hsec
    have hm1 : aget (asetd m sec []) sec = some d := aget_asetd_of_some _ _ _ _ _ hd
    rw [hm1]
    simp only [Option.getD_some]
    exact ⟨_, aget_aset_self _ _ _,
      fun k hk => aget_fold_asetd_mono keys _ k (hkeys k hk)⟩
  · rw [aget_aset_ne _ _ _ _ hsec]
    exact ⟨d, aget_asetd_of_some _ _ _ _ _ hd, hkeys⟩

theorem ensureSchemaAux_mono (l : List (String × List String)) (m : Meta)
    (sec' : String) (keys' : List String)
    (h : ∃ d, aget m sec' = some d ∧ ∀ k, k ∈ keys' → (aget d k).isSome = true) :
    ∃ d, aget (ensureSchemaAux l m) sec' = some d ∧
      ∀ k, k ∈ keys' → (aget d k).isSome = true := by
  induction l generalizing m with
  | nil => exact h
  | cons p rest ih =>
    obtain ⟨sec, keys⟩ := p
    exact ih _ (fillSection_mono m sec keys sec' keys' h)

theorem ensureSchemaAux_complete (l : List (String × List String)) (m : Meta)
    (sec : String) (keys : List String) (h : (sec, keys) ∈ l) :
    ∃ d, aget (ensureSchemaAux l m) sec = some d ∧
      ∀ k, k ∈ keys → (aget d k).isSome = true := by
  induction l generalizing m with
  | nil => cases h
  | cons p rest ih =>
    obtain ⟨sec0, keys0⟩ := p
    rcases List.mem_cons.mp h with heq | hm
    · cases heq
      exact ensureSchemaAux_mono rest _ sec keys (fillSection_complete m sec keys)
    · exact ih _ hm

theorem ensure_schema_complete (m : Meta) : schemaComplete (_ensure_schema m) :=
  fun sec keys h => ensureSchemaAux_complete _SCHEMA m sec keys h

/-- Values survive `_ensure_schema` unchanged: `setdefault` never
overwrites an existing key. -/
theorem aget_fillSection_of_some (m : Meta) (sec : String) (keys : List String)
    (sec' k : String) (d : SDict) (v : PVal)
    (hd : aget m sec' = some d) (hv : aget d k = some v) :
    ∃ d', aget (fillSection m sec keys) sec' = some d' ∧ aget d' k = some v := by
  unfold fillSection
  dsimp only
  by_cases hsec : sec = sec'
  · subst hsec
    have hm1 : aget (asetd m sec []) sec = some d := aget_asetd_of_some _ _ _ _ _ hd
    rw [hm1]
    simp only [Option.getD_some]
    exact ⟨_, aget_aset_self _ _ _, aget_fold_asetd_of_some keys d k v hv⟩
  · rw [aget_aset_ne _ _ _ _ hsec]
    exact ⟨d, aget_asetd_of_some _ _ _ _ _ hd, hv⟩

theorem aget_ensureSchemaAux_of_some (l : List (String × List String)) (m : Meta)
    (sec k : String) (d : SDict) (v : PVal)
    (hd : aget m sec = some d) (hv : aget d k = some v) :
    ∃ d', aget (ensureSchemaAux l m) sec = some d' ∧ aget d' k = some v := by
  induction l generalizing m d with
  | nil => exact ⟨d, hd, hv⟩
  | cons p rest ih =>
    obtain ⟨sec0, keys0⟩ := p
    obtain ⟨d1, hd1, hv1⟩ := aget_fillSection_of_some m sec0 keys0 sec k d v hd hv
    exact ih _ d1 hd1 hv1

theorem mem_aset_fst {V : Type} (d : List (String × V)) (k : String) (v : V)
    (p : String × V) (h : p ∈ aset d k v) : p.1 = k ∨ p ∈ d := by
  obtain ⟨pk, pv⟩ := p
  rcases mem_aset d pk k pv v h with ⟨h1, -⟩ | h2
  · exact Or.inl h1
  · exact Or.inr h2

theorem aget_mergeMined_of_some (mined : Meta) :
    ∀ (meta : Meta) (sec k : String) (v : PVal) (d : SDict),
      aget meta sec = some d → aget d k = some v →
      (∀ s dm, (s, dm) ∈ mined → s = sec → ∀ p, p ∈ dm → p.2 ≠ PVal.none → p.1 ≠ k) →
      ∃ d', aget (mergeMined meta mined) sec = some d' ∧ aget d' k = some v := by
  induction mined with
  | nil => exact fun meta sec k v d hd hv _ => ⟨d, hd, hv⟩
  | cons q rest ih =>
    intro meta sec k v d hd hv hdisj
    obtain ⟨s0, e0⟩ := q
    show ∃ d', aget (mergeMined
      (aset meta s0 (aupdate ((aget meta s0).getD [])
        (e0.filter (fun kv => kv.2 ≠ PVal.none)))) rest) sec = some d' ∧
      aget d' k = some v
    by_cases hs : s0 = sec
    · subst hs
      rw [hd] at *
      refine ih _ s0 k v _ (by rw [aget_aset_self]) ?_
        (fun s dm hm hseq => hdisj s dm (by simp [hm]) hseq)
      simp only [Option.getD_some]
      rw [aget_aupdate_not_mem]
      · exact hv
      · intro p hp
        have hp2 := List.of_mem_filter hp
        exact hdisj s0 e0 (by simp) rfl p (List.mem_of_mem_filter hp)
          (by simpa using hp2)
    · refine ih _ sec k v d ?_ hv (fun s dm hm hseq => hdisj s dm (by simp [hm]) hseq)
      rw [aget_aset_ne _ _ _ _ hs]
      exact hd

theorem extract_ok_inv (blob : List Nat) (m0 : Meta)
    (h : _extract_sections blob = .ok m0) :
    ∃ sw mp ip ap op sp,
      m0 = [("software_information", sw),
            ("data_information", []),
            ("instrument_information", []),
            ("measurement_properties", mp),
            ("instrument_properties", ip),
            ("attachment_properties", ap),
            ("operation", op),
            ("sample_preparation_properties", sp),
            ("stored_data", [])] ∧
      ∀ p : String × PVal, p ∈ sw → p.1 = "mode" := by
  unfold _extract_sections at h
  dsimp only at h
  split at h
  · cases h
  next mp hmp =>
    cases h
    refine ⟨_, mp, _, _, _, _, rfl, ?_⟩
    intro p hp
    revert hp
    split
    · intro hp
      rcases List.mem_singleton.mp hp with rfl
      rfl
    · intro hp; cases hp

theorem mine_mem (blob : List Nat) (tz : Option String) (s : String) (dm : SDict)
    (h : (s, dm) ∈ _mine_ascii_cluster blob tz) :
    (s = "software_information" ∧
      ∀ p : String × PVal, p ∈ dm → p.1 = "name" ∨ p.1 = "version") ∨
    (s = "data_information" ∧
      ∀ p : String × PVal, p ∈ dm →
        p.1 = "analyst" ∨ p.1 = "comments" ∨ p.1 = "datetime" ∨ p.1 = "datetime_utc") ∨
    (s = "instrument_information" ∧
      ∀ p : String × PVal, p ∈ dm → p.1 = "model_sn" ∨ p.1 = "type" ∨ p.1 = "name") ∨
    dm = [] := by
  unfold _mine_ascii_cluster at h
  dsimp only at h
  simp only [List.mem_cons, List.not_mem_nil, or_false, Prod.mk.injEq] at h
  rcases h with h0 | h0 | h0 | h0 | h0 | h0 | h0 | h0 | h0 <;>
    obtain ⟨rfl, rfl⟩ := h0
  · left
    refine ⟨rfl, fun p hp => ?_⟩
    revert hp
    split
    · intro hp
      rcases mem_aset_fst _ _ _ _ hp with h1 | hp2
      · exact Or.inr h1
      · rcases mem_aset_fst _ _ _ _ hp2 with h1 | hp3
        · exact Or.inl h1
        · cases hp3
    · intro hp; cases hp
  · right; left
    refine ⟨rfl, fun p hp => ?_⟩
    revert hp
    split
    · intro hp; cases hp
    next c g1 g2 =>
      split
      · intro hp
        rcases mem_aset_fst _ _ _ _ hp with h1 | hp2
        · tauto
        · rcases mem_aset_fst _ _ _ _ hp2 with h1 | hp3
          · tauto
          · rcases mem_aset_fst _ _ _ _ hp3 with h1 | hp4
            · tauto
            · rcases mem_aset_fst _ _ _ _ hp4 with h1 | hp5
              · tauto
              · cases hp5
      · intro hp
        rcases mem_aset_fst _ _ _ _ hp with h1 | hp2
        · tauto
        · rcases mem_aset_fst _ _ _ _ hp2 with h1 | hp3
          · tauto
          · rcases mem_aset_fst _ _ _ _ hp3 with h1 | hp4
            · tauto
            · rcases mem_aset_fst _ _ _ _ hp4 with h1 | hp5
              · tauto
              · cases hp5
      · intro hp
        rcases mem_aset_fst _ _ _ _ hp with h1 | hp2
        · tauto
        · rcases mem_aset_fst _ _ _ _ hp2 with h1 | hp3
          · tauto
          · cases hp3
  · right; right; left
    refine ⟨rfl, fun p hp => ?_⟩
    rcases mem_aset_fst _ _ _ _ hp with h1 | hp2
    · tauto
    · rcases mem_aset_fst _ _ _ _ hp2 with h1 | hp3
      · tauto
      · rcases mem_aset_fst _ _ _ _ hp3 with h1 | hp4
        · tauto
        · cases hp4
  all_goals right; right; right; rfl

/-- C4: merge precedence.  (1) Every key the section parser filled with a
non-absent value keeps exactly that value after the ASCII-cluster merge;
(2) a mined value only ever lands on keys that were absent after section
parsing. -/
theorem uvvis_c4_merge_precedence (blob : List Nat) (tz : Option String) (m0 : Meta)
    (h0 : _extract_sections blob = .ok m0) :
    (∀ sec d k v, aget m0 sec = some d → aget d k = some v → v ≠ PVal.none →
       ∃ d', aget (mergeMined m0 (_mine_ascii_cluster blob tz)) sec = some d' ∧
         aget d' k = some v) ∧
    (∀ sec dm k vm, aget (_mine_ascii_cluster blob tz) sec = some dm →
       aget dm k = some vm → vm ≠ PVal.none →
       ∀ d, aget m0 sec = some d → aget d k = none) := by
  obtain ⟨sw, mp, ip, ap, op, sp, rfl, hsw⟩ := extract_ok_inv blob m0 h0
  constructor
  · intro sec d k v hsec hk hv
    have hmem := aget_mem _ _ _ hsec
    simp only [List.mem_cons, List.not_mem_nil, or_false, Prod.mk.injEq] at hmem
    apply aget_mergeMined_of_some _ _ sec k v d hsec hk
    intro s dm hm hseq p hp hpnon hpk
    rw [hseq] at hm
    rcases mine_mem blob tz sec dm hm with ⟨rfl, hkeys⟩ | ⟨rfl, hkeys⟩ |
      ⟨rfl, hkeys⟩ | rfl
    · rcases hmem with ⟨-, rfl⟩ | ⟨hne, -⟩ | ⟨hne, -⟩ | ⟨hne, -⟩ | ⟨hne, -⟩ |
        ⟨hne, -⟩ | ⟨hne, -⟩ | ⟨hne, -⟩ | ⟨hne, -⟩
      · have hkmode : k = "mode" := hsw _ (aget_mem _ _ _ hk)
        have hp1 := hkeys p hp
        rw [hpk, hkmode] at hp1
        rcases hp1 with h1 | h1 <;> exact absurd h1 (by decide)
      all_goals exact absurd hne (by decide)
    · rcases hmem with ⟨hne, -⟩ | ⟨-, rfl⟩ | ⟨hne, -⟩ | ⟨hne, -⟩ | ⟨hne, -⟩ |
        ⟨hne, -⟩ | ⟨hne, -⟩ | ⟨hne, -⟩ | ⟨hne, -⟩
      · exact absurd hne (by decide)
      · exact Option.noConfusion (show (Option.none : Option PVal) = some v from hk)
      all_goals exact absurd hne (by decide)
    · rcases hmem with ⟨hne, -⟩ | ⟨hne, -⟩ | ⟨-, rfl⟩ | ⟨hne, -⟩ | ⟨hne, -⟩ |
        ⟨hne, -⟩ | ⟨hne, -⟩ | ⟨hne, -⟩ | ⟨hne, -⟩
      · exact absurd hne (by decide)
      · exact absurd hne (by decide)
      · exact Option.noConfusion (show (Option.none : Option PVal) = some v from hk)
      all_goals exact absurd hne (by decide)
    · cases hp
  · intro sec dm k vm hdm hkm hvm d hsec
    have hmmem := aget_mem _ _ _ hdm
    rcases mine_mem blob tz sec dm hmmem with ⟨rfl, hkeys⟩ | ⟨rfl, hkeys⟩ |
      ⟨rfl, hkeys⟩ | rfl
    · have hd : sw = d := Option.some.inj (by rw [← hsec]; simp [aget])
      subst hd
      cases hget : aget sw k with
      | none => rfl
      | some v0 =>
        exfalso
        have hkmode : k = "mode" := hsw _ (aget_mem _ _ _ hget)
        have hp1 : k = "name" ∨ k = "version" := by
          simpa using hkeys _ (aget_mem _ _ _ hkm)
        rw [hkmode] at hp1
        rcases hp1 with h1 | h1 <;> exact absurd h1 (by decide)
    · have hd : ([] : SDict) = d := Option.some.inj (by rw [← hsec]; simp [aget])
      subst hd
      rfl
    · have hd : ([] : SDict) = d := Option.some.inj (by rw [← hsec]; simp [aget])
      subst hd
      rfl
    · exact Option.noConfusion (show (Option.none : Option PVal) = some vm from hkm)

theorem load_ok_inv (blob : List Nat) (tz : Option String) (res : UvTable)
    (h : load_uvvis_spc blob tz = .ok res) :
    ∃ M y yOff yDtype, mergedMeta blob tz = .ok M ∧ 1 < nOf M ∧
      _find_y_values blob (nOf M).toNat = .ok (y, yOff, yDtype) ∧
      res.x = ((linspace (wlStartOf M) (wlEndOf M) (nOf M).toNat).map round3).reverse ∧
      res.y = y ∧
      res.attrs = _ensure_schema (aset M "stored_data"
        (aupdate ((aget M "stored_data").getD [])
          [("data_block_offset", PVal.int yOff),
           ("data_dtype", PVal.str (strBytes yDtype)),
           ("point_count", PVal.int (nOf M))])) := by
  unfold load_uvvis_spc at h
  split at h
  · cases h
  next M hM =>
    dsimp only at h
    split at h
    · cases h
    next hn =>
      split at h
      · cases h
      next y yOff yDtype hfind =>
        cases h
        refine ⟨M, y, yOff, yDtype, hM, by omega, hfind, rfl, rfl, ?_⟩
        with_reducible rfl

/-- C6: if the recovered wavelength metadata yields a point count
`n ≤ 1`, the decode aborts with the structural invalid-range error — in
particular it never reaches the numeric block scan (whose failure would be
the distinct no-Y-block error), whatever the buffer contains. -/
theorem uvvis_c6_fatal_path (blob : List Nat) (tz : Option String) (M : Meta)
    (hM : mergedMeta blob tz = .ok M) (hn : nOf M ≤ 1) :
    load_uvvis_spc blob tz = .error .invalidRange ∧
    load_uvvis_spc blob tz ≠ .error .noYBlock := by
  have hload : load_uvvis_spc blob tz = .error .invalidRange := by
    unfold load_uvvis_spc
    rw [hM]
    dsimp only
    rw [if_pos hn]
  exact ⟨hload, by rw [hload]; intro hc; cases hc⟩

/-- C7: every successful decode attaches a metadata record containing all
nine schema sections and every key of each section, with an explicit
absent marker for anything never recovered. -/
theorem uvvis_c7_schema_complete (blob : List Nat) (tz : Option String)
    (res : UvTable) (h : load_uvvis_spc blob tz = .ok res) :
    schemaComplete res.attrs := by
  obtain ⟨M, y, yOff, yDtype, -, -, -, -, -, hattrs⟩ := load_ok_inv blob tz res h
  rw [hattrs]
  exact ensure_schema_complete _

theorem ratFloor_eq_intFloor (q : ℚ) : Rat.floor q = ⌊q⌋ := by
  rw [Rat.floor_def', Rat.floor_def]

theorem roundHE_cases (q : ℚ) : roundHE q = ⌊q⌋ ∨ roundHE q = ⌊q⌋ + 1 := by
  unfold roundHE
  rw [ratFloor_eq_intFloor]
  dsimp only
  split_ifs <;> simp

theorem roundHE_ge (q : ℚ) : ⌊q⌋ ≤ roundHE q := by
  rcases roundHE_cases q with h | h <;> omega

theorem roundHE_frac_ge_of_ne (q : ℚ) (h : roundHE q ≠ ⌊q⌋) : 1 / 2 ≤ q - ⌊q⌋ := by
  unfold roundHE at h
  rw [ratFloor_eq_intFloor] at h
  dsimp only at h
  split_ifs at h <;> first | exact absurd rfl h | linarith

theorem roundHE_eq_succ_of_frac_gt (q : ℚ) (h : 1 / 2 < q - ⌊q⌋) :
    roundHE q = ⌊q⌋ + 1 := by
  unfold roundHE
  rw [ratFloor_eq_intFloor]
  dsimp only
  split_ifs <;> first | rfl | linarith

theorem roundHE_lt_of_one_lt_sub {x y : ℚ} (h : 1 < y - x) :
    roundHE x < roundHE y := by
  have hfx1 : (⌊x⌋ : ℚ) ≤ x := Int.floor_le x
  have hfx2 : x < ⌊x⌋ + 1 := Int.lt_floor_add_one x
  have hfy1 : (⌊y⌋ : ℚ) ≤ y := Int.floor_le y
  have hfy2 : y < ⌊y⌋ + 1 := Int.lt_floor_add_one y
  have hfy : ⌊x⌋ + 1 ≤ ⌊y⌋ := by
    apply Int.le_floor.mpr
    push_cast
    linarith
  rcases roundHE_cases x with hx | hx
  · have := roundHE_ge y
    omega
  · rcases Int.lt_or_le (⌊x⌋ + 1) ⌊y⌋ with hcase | hcase
    · have := roundHE_ge y
      omega
    · have hfyeq : ⌊y⌋ = ⌊x⌋ + 1 := by omega
      have hfrx : 1 / 2 ≤ x - ⌊x⌋ := roundHE_frac_ge_of_ne x (by omega)
      have hfry : 1 / 2 < y - ⌊y⌋ := by
        rw [hfyeq]
        push_cast
        linarith
      have := roundHE_eq_succ_of_frac_gt y hfry
      omega

theorem round3_lt {a b : ℚ} (h : 1 < 1000 * (b - a)) : round3 a < round3 b := by
  unfold round3
  have hlt : roundHE (a * 1000) < roundHE (b * 1000) :=
    roundHE_lt_of_one_lt_sub (by ring_nf; ring_nf at h; linarith)
  have hc : ((roundHE (a * 1000) : ℚ)) < ((roundHE (b * 1000) : ℚ)) := by
    exact_mod_cast hlt
  have h1000 : (0 : ℚ) < 1000 := by norm_num
  exact div_lt_div_of_pos_right hc h1000

theorem strictDescB_iff (l : List ℚ) :
    strictDescB l = true ↔ List.Chain' (fun a b => b < a) l := by
  induction l with
  | nil => simp [strictDescB]
  | cons a t ih =>
    cases t with
    | nil => simp [strictDescB]
    | cons b t2 =>
      rw [List.chain'_cons, ← ih]
      show (decide (b < a) && strictDescB (b :: t2)) = true ↔
        (b < a ∧ strictDescB (b :: t2) = true)
      simp

/-- C8 (amended): the spec claims the wavelength column is strictly
descending for *every* successful decode; rounding to 3 decimals breaks
this when the axis spacing does not exceed 0.001 nm (counterexample:
`c8cblob`).  Under the amended hypothesis that the recovered range is wide
enough — `wl_end - wl_start` strictly exceeds `(n - 1)/1000`, i.e. the
linspace spacing exceeds 0.001 — the returned column, `linspace` rounded
to 3 decimals then reversed, is strictly descending with exactly `n`
entries. -/
theorem uvvis_c8_axis_descending (blob : List Nat) (tz : Option String)
    (res : UvTable) (M : Meta)
    (h : load_uvvis_spc blob tz = .ok res)
    (hM : mergedMeta blob tz = .ok M)
    (hsep : ((nOf M : ℚ) - 1) < 1000 * (wlEndOf M - wlStartOf M)) :
    strictDescB res.x = true ∧ res.x.length = (nOf M).toNat := by
  obtain ⟨M', y, yOff, yDtype, hM', hn, -, hx, -, -⟩ := load_ok_inv blob tz res h
  rw [hM] at hM'
  injection hM' with hMM
  subst hMM
  constructor
  · rw [hx, strictDescB_iff, List.chain'_reverse]
    obtain ⟨m, hm⟩ : ∃ m, (nOf M).toNat = m + 1 := ⟨(nOf M).toNat - 1, by omega⟩
    have hm1 : 1 ≤ m := by omega
    rw [linspace, List.map_map, hm, List.chain'_map, List.chain'_range_succ]
    intro k hk
    show round3 _ < round3 _
    apply round3_lt
    have hpos : (0 : ℚ) < (m : ℚ) := by exact_mod_cast hm1
    have hq : ((nOf M : ℤ) : ℚ) = (m : ℚ) + 1 := by
      have : nOf M = (m : ℤ) + 1 := by omega
      rw [this]; push_cast; ring
    rw [hq] at hsep
    have h3 : 1 < 1000 * ((wlEndOf M - wlStartOf M) / (((m : ℚ) + 1) - 1)) := by
      have hme : ((m : ℚ) + 1) - 1 = (m : ℚ) := by ring
      rw [hme, ← mul_div_assoc, lt_div_iff₀ hpos]
      linarith
    push_cast
    push_cast at h3
    linarith [h3]
  · rw [hx]
    simp [linspace]

theorem roundHE_frac_le_of_eq (q : ℚ) (h : roundHE q = ⌊q⌋) : q - ⌊q⌋ ≤ 1 / 2 := by
  unfold roundHE at h
  rw [ratFloor_eq_intFloor] at h
  dsimp only at h
  split_ifs at h <;> linarith

theorem roundHE_abs_le (q : ℚ) : |(roundHE q : ℚ) - q| ≤ 1 / 2 := by
  have hf1 : (⌊q⌋ : ℚ) ≤ q := Int.floor_le q
  have hf2 : q < ⌊q⌋ + 1 := Int.lt_floor_add_one q
  rw [abs_le]
  rcases roundHE_cases q with h | h
  · have h3 := roundHE_frac_le_of_eq q h
    rw [h]
    constructor <;> linarith
  · have h3 : 1 / 2 ≤ q - ⌊q⌋ := roundHE_frac_ge_of_ne q (by omega)
    rw [h]
    push_cast
    constructor <;> linarith

theorem roundHE_intCast (n : ℤ) : roundHE ((n : ℤ) : ℚ) = n := by
  unfold roundHE
  rw [ratFloor_eq_intFloor, Int.floor_intCast]
  dsimp only
  rw [if_pos]
  norm_num

theorem two_pow_cast_pos (n : ℕ) : (0 : ℚ) < ((2 ^ n : Nat) : ℚ) := by
  exact_mod_cast pow_pos (by norm_num : (0 : ℕ) < 2) n

theorem log2fuel_pow_le (fuel : Nat) :
    ∀ n, 1 ≤ n → n ≤ fuel → 2 ^ log2fuel fuel n ≤ n := by
  induction fuel with
  | zero =>
    intro n h1 h2
    exact absurd (h1.trans h2) (by decide)
  | succ fuel ih =>
    intro n h1 h2
    unfold log2fuel
    split_ifs with hn
    · have ihh := ih (n / 2) (by omega) (by omega)
      have hpow : 2 ^ (log2fuel fuel (n / 2) + 1) = 2 * 2 ^ log2fuel fuel (n / 2) := by
        rw [Nat.pow_succ]
        ring
      rw [hpow]
      omega
    · simpa using h1

theorem log2fuel_lt_pow (fuel : Nat) :
    ∀ n, n ≤ fuel → n < 2 ^ (log2fuel fuel n + 1) := by
  induction fuel with
  | zero =>
    intro n h2
    have hn0 : n = 0 := by omega
    subst hn0
    decide
  | succ fuel ih =>
    intro n h2
    unfold log2fuel
    split_ifs with hn
    · have ihh := ih (n / 2) (by omega)
      have hpow : 2 ^ (log2fuel fuel (n / 2) + 1 + 1)
          = 2 * 2 ^ (log2fuel fuel (n / 2) + 1) := by
        rw [Nat.pow_succ]
        ring
      rw [hpow]
      omega
    · have hp : (2 : ℕ) ^ (0 + 1) = 2 := by norm_num
      omega

theorem nlog2_pow_le {n : Nat} (h : 1 ≤ n) : 2 ^ nlog2 n ≤ n :=
  log2fuel_pow_le n n h (le_refl n)

theorem nlog2_lt_pow (n : Nat) : n < 2 ^ (nlog2 n + 1) :=
  log2fuel_lt_pow n n (le_refl n)

theorem pow2z_pos (z : ℤ) : 0 < pow2z z := by
  unfold pow2z
  split_ifs
  · exact two_pow_cast_pos _
  · exact div_pos one_pos (two_pow_cast_pos _)

theorem pow2z_mul_neg (z : ℤ) : pow2z z * pow2z (-z) = 1 := by
  unfold pow2z
  rcases lt_trichotomy z 0 with hz | hz | hz
  · rw [if_neg (by omega), if_pos (by omega)]
    exact one_div_mul_cancel (ne_of_gt (two_pow_cast_pos _))
  · subst hz
    norm_num
  · rw [if_pos (by omega), if_neg (by omega)]
    simp only [neg_neg]
    exact mul_one_div_cancel (ne_of_gt (two_pow_cast_pos _))

theorem roundHE_nonneg {q : ℚ} (h : 0 ≤ q) : 0 ≤ roundHE q := by
  have h1 : (0 : ℤ) ≤ ⌊q⌋ := Int.floor_nonneg.mpr h
  have h2 := roundHE_ge q
  omega

theorem dDivTen_nonneg (val : Nat) : 0 ≤ dDivTen val := by
  unfold dDivTen
  split_ifs with h0
  · exact le_refl 0
  · apply mul_nonneg
    · have hq : (0 : ℚ) ≤ (val : ℚ) / 10 * pow2z (52 - dExpo val) :=
        mul_nonneg (by positivity) (le_of_lt (pow2z_pos _))
      exact_mod_cast roundHE_nonneg hq
    · exact le_of_lt (pow2z_pos _)

/-- Half-ulp accuracy of the binary64 quotient: twice the rounding error
is at most one unit in the last place, `2^(e-52)`. -/
theorem dDivTen_halfUlp (val : Nat) :
    2 * |dDivTen val - (val : ℚ) / 10| ≤ pow2z (dExpo val - 52) := by
  by_cases h0 : val = 0
  · subst h0
    have hz := pow2z_pos (dExpo 0 - 52)
    simp [dDivTen]
    linarith
  · unfold dDivTen
    rw [if_neg h0]
    have hub := roundHE_abs_le ((val : ℚ) / 10 * pow2z (52 - dExpo val))
    have hppos := pow2z_pos (dExpo val - 52)
    have hinv : pow2z (52 - dExpo val) * pow2z (dExpo val - 52) = 1 := by
      have h1 := pow2z_mul_neg (52 - dExpo val)
      rwa [show -(52 - dExpo val) = dExpo val - 52 by ring] at h1
    have key : ((roundHE ((val : ℚ) / 10 * pow2z (52 - dExpo val)) : ℤ) : ℚ) *
          pow2z (dExpo val - 52) - (val : ℚ) / 10
        = (((roundHE ((val : ℚ) / 10 * pow2z (52 - dExpo val)) : ℤ) : ℚ) -
            (val : ℚ) / 10 * pow2z (52 - dExpo val)) * pow2z (dExpo val - 52) := by
      rw [sub_mul, mul_assoc, hinv, mul_one]
    rw [key, abs_mul, abs_of_pos hppos]
    have hmul : |((roundHE ((val : ℚ) / 10 * pow2z (52 - dExpo val)) : ℤ) : ℚ) -
          (val : ℚ) / 10 * pow2z (52 - dExpo val)| * pow2z (dExpo val - 52)
        ≤ (1 / 2) * pow2z (dExpo val - 52) :=
      mul_le_mul_of_nonneg_right hub (le_of_lt hppos)
    linarith

/-- When `10 ∣ val` and the quotient is below `2^53` (guaranteed by
`val < 2^56`), the binary64 division is exact. -/
theorem dDivTen_exact {val : Nat} (hdvd : 10 ∣ val) (hlt : val < 2 ^ 56) :
    dDivTen val = (val : ℚ) / 10 := by
  obtain ⟨u, hu⟩ := hdvd
  by_cases h0 : val = 0
  · subst h0
    norm_num [dDivTen]
  · have hq : (val : ℚ) / 10 = ((u : ℕ) : ℚ) := by
      rw [hu]
      push_cast
      ring
    have hk : nlog2 val < 56 := by
      by_contra hge
      push_neg at hge
      have hmono : (2 : ℕ) ^ 56 ≤ 2 ^ nlog2 val :=
        Nat.pow_le_pow_right (by norm_num) hge
      have hle := nlog2_pow_le (Nat.one_le_iff_ne_zero.mpr h0)
      omega
    have he52 : dExpo val ≤ 52 := by
      unfold dExpo
      dsimp only
      split_ifs <;> omega
    unfold dDivTen
    rw [if_neg h0]
    have hpz : pow2z (52 - dExpo val) = ((2 ^ (52 - dExpo val).toNat : Nat) : ℚ) := by
      unfold pow2z
      rw [if_pos (by omega)]
    have hint : (val : ℚ) / 10 * pow2z (52 - dExpo val)
        = (((u * 2 ^ (52 - dExpo val).toNat : Nat) : ℤ) : ℚ) := by
      rw [hq, hpz]
      push_cast
      ring
    rw [hint, roundHE_intCast, ← hint, hq, mul_assoc]
    have hinv : pow2z (52 - dExpo val) * pow2z (dExpo val - 52) = 1 := by
      have h1 := pow2z_mul_neg (52 - dExpo val)
      rwa [show -(52 - dExpo val) = dExpo val - 52 by ring] at h1
    rw [hinv, mul_one]

theorem decodeFiletime_inv {val t : Nat} (h : decodeFiletime val = some t) :
    (t : ℤ) = roundHE (dDivTen val) ∧ t ≤ maxMicros := by
  unfold decodeFiletime at h
  dsimp only at h
  split_ifs at h with h1
  injection h with h
  subst h
  have h0 := roundHE_nonneg (dDivTen_nonneg val)
  exact ⟨Int.toNat_of_nonneg h0, by omega⟩

/-- C9 (amended): the source's signature `rb"\x02(...)\x0b(...)"` requires
the specific control bytes `0x02` and `0x0B`, not arbitrary control bytes
as the claim reads (counterexample: a run pair delimited by `0x03`/`0x0A`
satisfies the claim's description yet mines nothing).  Amended to the
code's pattern: whenever the `0x02`/`0x0B` signature matches at some
offset, `_mine_ascii_cluster` locates the leftmost match and records its
two printable groups, whitespace-stripped, as `data_information.analyst`
and `data_information.comments`. -/
theorem uvvis_c9_signature (blob : List Nat) (tz : Option String) (i : Nat)
    (g1 g2 : List Nat) (h : sigMatchAt blob i = some (g1, g2)) :
    ∃ c r1 r2, sigSearch blob = some (c, r1, r2) ∧ c ≤ i ∧
      sigMatchAt blob c = some (r1, r2) ∧
      (∀ j, j < c → sigMatchAt blob j = Option.none) ∧
      aget ((aget (_mine_ascii_cluster blob tz) "data_information").getD [])
        "analyst" = some (PVal.str (stripWs r1)) ∧
      aget ((aget (_mine_ascii_cluster blob tz) "data_information").getD [])
        "comments" = some (PVal.str (stripWs r2)) := by
  have hle : i ≤ blob.length := by
    by_contra hgt
    unfold sigMatchAt at h
    rw [if_neg hgt] at h
    cases h
  cases hs : sigSearch blob with
  | none =>
    exfalso
    unfold sigSearch at hs
    rw [scanFirstAux_none_iff] at hs
    have hz := hs i (by omega) (by omega)
    rw [h] at hz
    cases hz
  | some trip =>
    obtain ⟨c, r1, r2⟩ := trip
    have hs' := hs
    unfold sigSearch at hs'
    rw [scanFirstAux_some_iff] at hs'
    obtain ⟨i0, -, -, hf, hmin⟩ := hs'
    obtain ⟨ga, gb, hg, hic, hg1, hg2⟩ :
        ∃ ga gb, sigMatchAt blob i0 = some (ga, gb) ∧ i0 = c ∧ ga = r1 ∧ gb = r2 := by
      cases hm : sigMatchAt blob i0 with
      | none => rw [hm] at hf; cases hf
      | some g =>
        obtain ⟨ga, gb⟩ := g
        rw [hm] at hf
        injection hf with hf
        obtain ⟨e1, e2, e3⟩ : i0 = c ∧ ga = r1 ∧ gb = r2 := by simpa using hf
        exact ⟨ga, gb, rfl, e1, e2, e3⟩
    subst hic
    subst hg1
    subst hg2
    have hminS : ∀ j, j < i0 → sigMatchAt blob j = Option.none := by
      intro j hj
      have hz := hmin j (by omega) hj
      cases hmj : sigMatchAt blob j with
      | none => rfl
      | some g' => rw [hmj] at hz; cases hz
    have hci : i0 ≤ i := by
      by_contra hgt
      have hz := hminS i (by omega)
      rw [h] at hz
      cases hz
    have hstep : ∃ rest : SDict,
        (aget (_mine_ascii_cluster blob tz) "data_information").getD [] =
          ("analyst", PVal.str (stripWs ga)) ::
            ("comments", PVal.str (stripWs gb)) :: rest := by
      unfold _mine_ascii_cluster
      dsimp only
      rw [hs]
      rcases h4 : _apply_tz (_first_filetime (mineWindow blob)) tz with ⟨lo, uo⟩
      cases lo <;> cases uo <;> exact ⟨_, rfl⟩
    obtain ⟨rest, hrest⟩ := hstep
    exact ⟨i0, ga, gb, rfl, hci, hg, hminS, by rw [hrest]; rfl, by rw [hrest]; rfl⟩

section

set_option allowUnsafeReducibility true

attribute [local semireducible] Rat.add Rat.mul Rat.inv Rat.sub

set_option maxRecDepth 100000

set_option maxHeartbeats 4000000

set_option exponentiation.threshold 2000

/-- C5 (amended): the claim reads "the decoded timestamp equals
1601-01-01 plus exactly ticks/10 microseconds", but the source computes
`timedelta(microseconds=val / 10)`: `val / 10` is first rounded to a
binary64 double (error at most half an ulp — twice the error is at most
`2^(e-52)` where `e` is the quotient's binary exponent), and `timedelta`
then rounds that double half-to-even to `datetime`'s one-microsecond
grid (error at most 1/2 µs).  The result is exactly `ticks/10` only when
`10 ∣ ticks` *and* the quotient is below `2^53` (`ticks < 2^56`, before
~1830, so never in the gate range); counterexamples: `ticks = 15`
(microsecond grid), and `ticks = 133485408000000010` (double rounding,
in the gate range).  The rest of the claim holds: `_first_filetime`
returns the first examined 64-bit little-endian value surviving the year
gate `1990 ≤ year ≤ 2100`, skipping failing candidates; a ticks value
decoding to year 1700 is rejected, and the 2024-01-01 value is accepted
and renders to the matching ISO-8601 string. -/
theorem uvvis_c5_filetime :
    (∀ w t, _first_filetime w = some t ↔
      ∃ i, i < w.length - 8 ∧ ftCandidate (ticksAt w i) = some t ∧
        ∀ j, j < i → ftCandidate (ticksAt w j) = Option.none) ∧
    (∀ val, 2 * |dDivTen val - filetimeSpecMicros val| ≤ pow2z (dExpo val - 52)) ∧
    (∀ val t, decodeFiletime val = some t →
      |(t : ℚ) - dDivTen val| ≤ 1 / 2 ∧
      (10 ∣ val → val < 2 ^ 56 → (t : ℚ) = filetimeSpecMicros val)) ∧
    (∀ val t, ftCandidate val = some t ↔
      decodeFiletime val = some t ∧ 1990 ≤ yearOfMicros t ∧ yearOfMicros t ≤ 2100) ∧
    decodeFiletime ticks1700 = some 3124137600000000 ∧
    yearOfMicros 3124137600000000 = 1700 ∧
    ftCandidate ticks1700 = Option.none ∧
    _first_filetime c5wblob = some 13348540800000000 ∧
    civilOfMicros 13348540800000000 = (2024, 1, 1) ∧
    isoWithOffset 13348540800000000 0 = strBytes "2024-01-01T00:00:00.000+00:00" := by
  refine ⟨?_, ?_, ?_, ?_, by decide, by decide, by decide, by decide, by decide,
    by decide⟩
  · intro w t
    unfold _first_filetime
    rw [scanFirstAux_some_iff]
    constructor
    · rintro ⟨i, -, h2, h3, h4⟩
      exact ⟨i, by omega, h3, fun j hj => h4 j (by omega) hj⟩
    · rintro ⟨i, h1, h2, h3⟩
      exact ⟨i, by omega, by omega, h2, fun j _ hj => h3 j hj⟩
  · intro val
    exact dDivTen_halfUlp val
  · intro val t h
    obtain ⟨ht, -⟩ := decodeFiletime_inv h
    constructor
    · have hc : (t : ℚ) = ((roundHE (dDivTen val) : ℤ) : ℚ) := by
        rw [← ht]
        push_cast
        ring
      rw [hc]
      exact roundHE_abs_le _
    · intro hdvd hlt
      unfold filetimeSpecMicros
      obtain ⟨k, hk⟩ := hdvd
      have hq : (val : ℚ) / 10 = ((k : ℤ) : ℚ) := by
        rw [hk]
        push_cast
        ring
      rw [dDivTen_exact ⟨k, hk⟩ hlt, hq, roundHE_intCast] at ht
      rw [hq]
      exact_mod_cast ht
  · intro val t
    unfold ftCandidate
    cases hd : decodeFiletime val with
    | none => simp
    | some u =>
      dsimp only
      split_ifs with hg
      · constructor
        · intro he
          injection he with he
          subst he
          exact ⟨rfl, hg.1, hg.2⟩
        · rintro ⟨he, -⟩
          injection he with he
          rw [he]
      · constructor
        · intro he
          cases he
        · rintro ⟨he, hy1, hy2⟩
          injection he with he
          subst he
          exact absurd ⟨hy1, hy2⟩ hg

/-- C10: the `tz` parameter of `load_uvvis_spc` defaults to the zone name
`"Europe/Prague"` (not `None`): omitting the argument is the same as
passing `some "Europe/Prague"`.  Whenever the miner finds the signature
and recovers a FILETIME, `data_information.datetime` holds the
Europe/Prague local ISO-8601 string and `data_information.datetime_utc`
the UTC string, while passing `tz = None` puts the UTC string in
`datetime`.  Concretely, decoding `c10blob` with the default zone yields
the `+01:00` Prague string in `datetime` and the `+00:00` string in
`datetime_utc`. -/
theorem uvvis_c10_default_tz :
    (∀ blob, load_uvvis_spc blob = load_uvvis_spc blob (some "Europe/Prague")) ∧
    (∀ blob t c g1 g2, sigSearch blob = some (c, g1, g2) →
      _first_filetime (mineWindow blob) = some t →
      aget ((aget (_mine_ascii_cluster blob (some "Europe/Prague"))
          "data_information").getD []) "datetime"
        = some (PVal.str (isoWithOffset t (pragueOffsetMin t))) ∧
      aget ((aget (_mine_ascii_cluster blob (some "Europe/Prague"))
          "data_information").getD []) "datetime_utc"
        = some (PVal.str (isoWithOffset t 0)) ∧
      aget ((aget (_mine_ascii_cluster blob Option.none)
          "data_information").getD []) "datetime"
        = some (PVal.str (isoWithOffset t 0))) ∧
    load_uvvis_spc c10blob = .ok c10res ∧
    aget ((aget c10res.attrs "data_information").getD []) "datetime"
      = some (PVal.str (strBytes "2024-01-01T01:00:00.000+01:00")) ∧
    aget ((aget c10res.attrs "data_information").getD []) "datetime_utc"
      = some (PVal.str (strBytes "2024-01-01T00:00:00.000+00:00")) ∧
    aget ((aget (_mine_ascii_cluster c10blob Option.none)
        "data_information").getD []) "datetime"
      = some (PVal.str (strBytes "2024-01-01T00:00:00.000+00:00")) := by
  refine ⟨fun blob => rfl, ?_, by decide, by decide, by decide, by decide⟩
  intro blob t c g1 g2 hsig hft
  have hPrague : (aget (_mine_ascii_cluster blob (some "Europe/Prague"))
      "data_information").getD [] =
      [("analyst", PVal.str (stripWs g1)), ("comments", PVal.str (stripWs g2)),
       ("datetime", PVal.str (isoWithOffset t (pragueOffsetMin t))),
       ("datetime_utc", PVal.str (isoWithOffset t 0))] := by
    unfold _mine_ascii_cluster
    dsimp only
    rw [hsig]
    unfold _apply_tz
    rw [hft]
    dsimp only
    unfold zoneOffsetMin
    rw [if_pos rfl]
    rfl
  have hNone : (aget (_mine_ascii_cluster blob Option.none)
      "data_information").getD [] =
      [("analyst", PVal.str (stripWs g1)), ("comments", PVal.str (stripWs g2)),
       ("datetime", PVal.str (isoWithOffset t 0)),
       ("datetime_utc", PVal.str (isoWithOffset t 0))] := by
    unfold _mine_ascii_cluster
    dsimp only
    rw [hsig]
    unfold _apply_tz
    rw [hft]
    rfl
  exact ⟨by rw [hPrague]; rfl, by rw [hPrague]; rfl, by rw [hNone]; rfl⟩

end

section

set_option allowUnsafeReducibility true

attribute [local semireducible] Rat.add Rat.mul Rat.inv Rat.sub

set_option maxRecDepth 100000

set_option maxHeartbeats 4000000

set_option exponentiation.threshold 2000

/-- C5, counterexamples to exactness.  Microsecond grid: the only ticks
value `_first_filetime` examines in `c5cblob` is 15, which decodes to 2
whole microseconds, not to the claim's exact 15/10.  Double rounding: the
gate-range value 133485408000000010 is divisible by 10, yet its exact
quotient 13348540800000001 is an odd integer above `2^53`; the binary64
division rounds it to the even neighbour, so the program decodes
13348540800000000 µs, not ticks/10. -/
theorem uvvis_c5_counterexample :
    ticksAt c5cblob 0 = 15 ∧ c5cblob.length - 8 = 1 ∧
    decodeFiletime 15 = some 2 ∧ ((2 : ℚ) ≠ filetimeSpecMicros 15) ∧
    10 ∣ (133485408000000010 : Nat) ∧
    decodeFiletime 133485408000000010 = some 13348540800000000 ∧
    ((13348540800000000 : Nat) : ℚ) ≠ filetimeSpecMicros 133485408000000010 := by
  decide

/-- C5 witness: the exactness clause of `uvvis_c5_filetime` applied to the
small ticks value 20 (divisible by ten, quotient below `2^53`). -/
theorem uvvis_c5_filetime_witness :
    decodeFiletime 20 = some 2 ∧ 10 ∣ (20 : Nat) ∧ (20 : Nat) < 2 ^ 56 ∧
    ((2 : Nat) : ℚ) = filetimeSpecMicros 20 :=
  ⟨by decide, by decide, by decide,
    (uvvis_c5_filetime.2.2.1 20 2 (by decide)).2 (by decide) (by decide)⟩

/-- C1 witness: `c1blob` holds a surviving float64 candidate at offset 0,
so the decode returns dtype `"float64"`. -/
theorem uvvis_c1_dtype_priority_witness :
    surviving c1blob 3 (-10) 10 8 decF64 0 = some [0, 1, 2] ∧
    ∃ y off, _find_y_values c1blob 3 = .ok (y, off, "float64") :=
  ⟨by decide, uvvis_c1_dtype_priority c1blob 3 0 [0, 1, 2] (by decide)⟩

/-- C2 witness: the decode of `c2blob` returns the surviving candidate at
offset 0 and it is roughness-minimal among survivors. -/
theorem uvvis_c2_roughness_selection_witness :
    surviving c2blob 3 (-10) 10 (dtypeStride "float64") (dtypeDec "float64") 0
      = some [0, 1 / 2, 1] ∧
    ∀ s a, surviving c2blob 3 (-10) 10 (dtypeStride "float64") (dtypeDec "float64") s
        = some a →
      rghLt (_roughness a) (_roughness [0, 1 / 2, 1]) = false ∧
      (s < 0 → rghLt (_roughness [0, 1 / 2, 1]) (_roughness a) = true) :=
  uvvis_c2_roughness_selection c2blob 3 [0, 1 / 2, 1] 0 "float64" (by decide)

/-- C3 witness: the plausibility postconditions hold for the block decoded
from `c3blob`. -/
theorem uvvis_c3_plausibility_post_witness :
    ("float64" = "float64" ∨ "float64" = "float32") ∧
    decodeGroups (dtypeDec "float64") (dtypeStride "float64") 3
      ((c3blob.drop 0).take (3 * dtypeStride "float64")) = some [1, 2, 3] ∧
    -10 ≤ lmin [1, 2, 3] ∧ lmax [1, 2, 3] ≤ 10 ∧
    1 / ((10 ^ 12 : Nat) : ℚ) ≤ lvar [1, 2, 3] ∧
    0 + 3 * dtypeStride "float64" ≤ c3blob.length :=
  uvvis_c3_plausibility_post c3blob 3 [1, 2, 3] 0 "float64" (by decide)

/-- C4 witness: the section-parsed `operation.threshold` value of `c4blob`
survives the merge with the mined record unchanged. -/
theorem uvvis_c4_merge_precedence_witness :
    ∃ d', aget (mergeMined c4meta (_mine_ascii_cluster c4blob Option.none))
        "operation" = some d' ∧ aget d' "threshold" = some (PVal.num (5 / 2)) :=
  (uvvis_c4_merge_precedence c4blob Option.none c4meta (by decide)).1
    "operation" ((aget c4meta "operation").getD []) "threshold" (PVal.num (5 / 2))
    (by decide) (by decide) (by decide)

/-- C6 witness: the empty buffer recovers no wavelength metadata
(`n = 1 ≤ 1`) and fails with the invalid-range error, never the no-Y-block
error. -/
theorem uvvis_c6_fatal_path_witness :
    load_uvvis_spc [] Option.none = .error .invalidRange ∧
    load_uvvis_spc [] Option.none ≠ .error .noYBlock :=
  uvvis_c6_fatal_path [] Option.none c6meta (by decide) (by decide)

/-- C7 witness: the record attached to the decode of `c7blob` is
schema-complete. -/
theorem uvvis_c7_schema_complete_witness :
    schemaComplete c7res.attrs :=
  uvvis_c7_schema_complete c7blob Option.none c7res (by decide)

/-- C8 counterexample: `c8cblob` decodes successfully, yet its wavelength
column `[1, 1]` (spacing 0.0004 nm collapsed by the 3-decimal rounding) is
not strictly descending. -/
theorem uvvis_c8_counterexample :
    load_uvvis_spc c8cblob Option.none = .ok c8cres ∧
    c8cres.x = [1, 1] ∧ strictDescB c8cres.x = false := by
  decide

/-- C8 witness: `c8wblob`'s recovered range (400–402 nm, 3 points) is wide
enough, and its returned axis is strictly descending with 3 entries. -/
theorem uvvis_c8_axis_descending_witness :
    ((nOf c8wmeta : ℚ) - 1) < 1000 * (wlEndOf c8wmeta - wlStartOf c8wmeta) ∧
    (strictDescB c8wres.x = true ∧ c8wres.x.length = (nOf c8wmeta).toNat) :=
  ⟨by decide,
    uvvis_c8_axis_descending c8wblob Option.none c8wres c8wmeta (by decide)
      (by decide) (by decide)⟩

/-- C9 counterexample: `c9cblob` satisfies the claim's reading of the
signature (printable runs delimited by the control bytes `0x03`/`0x0A`),
yet the miner records no analyst or comments. -/
theorem uvvis_c9_counterexample :
    claimC9SigFound c9cblob = true ∧
    sigSearch c9cblob = Option.none ∧
    aget ((aget (_mine_ascii_cluster c9cblob Option.none) "data_information").getD [])
      "analyst" = Option.none ∧
    aget ((aget (_mine_ascii_cluster c9cblob Option.none) "data_information").getD [])
      "comments" = Option.none := by
  decide

/-- C9 witness: `c9wblob` carries the `0x02`/`0x0B` signature at offset 0
and the miner records its groups. -/
theorem uvvis_c9_signature_witness :
    ∃ c r1 r2, sigSearch c9wblob = some (c, r1, r2) ∧ c ≤ 0 ∧
      sigMatchAt c9wblob c = some (r1, r2) ∧
      (∀ j, j < c → sigMatchAt c9wblob j = Option.none) ∧
      aget ((aget (_mine_ascii_cluster c9wblob Option.none) "data_information").getD [])
        "analyst" = some (PVal.str (stripWs r1)) ∧
      aget ((aget (_mine_ascii_cluster c9wblob Option.none) "data_information").getD [])
        "comments" = some (PVal.str (stripWs r2)) :=
  uvvis_c9_signature c9wblob Option.none 0 (strBytes "Jo") (strBytes "hi") (by decide)

/-- C10 witness: the datetime clause of `uvvis_c10_default_tz` applied to
`c10blob` and its recovered FILETIME. -/
theorem uvvis_c10_default_tz_witness :
    aget ((aget (_mine_ascii_cluster c10blob (some "Europe/Prague"))
        "data_information").getD []) "datetime"
      = some (PVal.str (isoWithOffset 13348540800000000
          (pragueOffsetMin 13348540800000000))) ∧
    aget ((aget (_mine_ascii_cluster c10blob (some "Europe/Prague"))
        "data_information").getD []) "datetime_utc"
      = some (PVal.str (isoWithOffset 13348540800000000 0)) ∧
    aget ((aget (_mine_ascii_cluster c10blob Option.none)
        "data_information").getD []) "datetime"
      = some (PVal.str (isoWithOffset 13348540800000000 0)) :=
  uvvis_c10_default_tz.2.1 c10blob 13348540800000000 8 (strBytes "JD")
    (strBytes "hi") (by decide) (by decide)

end
